import Mathlib

/-!
Verification development for the `accounting-js` number/currency formatting
library (`dist/accounting.es.js`).

The JavaScript source is shallowly embedded as follows:
* JS numbers are modelled as exact rationals (`ℚ`); the library's own
  documentation treats values as decimals, and the `1e-11` epsilon of
  `toFixed` is carried through exactly.
* JS strings are modelled as `String` / `List Char`; the specific regular
  expressions of the source are modelled by hand-rolled scanners that follow
  the semantics of those regexes on the character classes involved.
* JS runtime errors (`TypeError` from property access on `undefined`) are
  modelled by `Option`: `none` means the call throws.
* The process-wide `settings` object is modelled by passing the global
  settings record explicitly (parameter `glob`); state-passing wrappers
  (`unformatS`, ..., `formatColumnS`) expose the heap-threading view used for
  the frame-effect theorem.
-/

namespace AccountingJS

/-! ### Character and list utilities (JS string primitives) -/

/-- The character for a single decimal digit, as produced by JS number→string
conversion. -/
def digitChar (n : ℕ) : Char := Char.ofNat (48 + n % 10)

/-- Fuel-driven digit expansion of a natural number, most significant digit
first.  `fuel > n` suffices. -/
def natDigitsAux : ℕ → ℕ → List Char
  | 0, _ => []
  | f + 1, n => if n < 10 then [digitChar n] else natDigitsAux f (n / 10) ++ [digitChar (n % 10)]

/-- Decimal digit string of a natural number (JS `String(n)` for naturals). -/
def natDigits (n : ℕ) : List Char := natDigitsAux (n + 1) n

/-- JS `String(i)` for an integer value. -/
def intToStringL (i : ℤ) : List Char :=
  (if i < 0 then ['-'] else []) ++ natDigits i.natAbs

/-- Value of a digit character. -/
def digitVal (c : Char) : ℕ := c.toNat - 48

/-- Parse a list of digit characters as a natural number (most significant
first); non-digit characters are not expected. -/
def parseNatL (l : List Char) : ℕ := l.foldl (fun a c => 10 * a + digitVal c) 0

/-- `startsWithL pat l` holds when `pat` occurs at the very start of `l`. -/
def startsWithL : List Char → List Char → Bool
  | [], _ => true
  | _ :: _, [] => false
  | p :: ps, c :: cs => p = c && startsWithL ps cs

/-- JS `String.prototype.replace` with a plain-string pattern: replace the
first occurrence of `pat` in `l` by `rep` (no occurrence: unchanged; empty
pattern: insert at the start, as JS does). -/
def replaceFirstL : List Char → List Char → List Char → List Char
  | [], pat, rep => if pat = [] then rep else []
  | c :: cs, pat, rep =>
    if startsWithL pat (c :: cs) then rep ++ (c :: cs).drop pat.length
    else c :: replaceFirstL cs pat rep

/-- Index of the first occurrence of `pat` in `l` (JS `indexOf`, with `none`
playing the role of `-1`). -/
def idxOfL : List Char → List Char → Option ℕ
  | [], pat => if pat = [] then some 0 else none
  | c :: cs, pat =>
    if startsWithL pat (c :: cs) then some 0 else (idxOfL cs pat).map (· + 1)

/-- Substring occurrence test (JS `String.prototype.match` with a literal
pattern, used as a Boolean). -/
def containsL : List Char → List Char → Bool
  | [], pat => pat = []
  | c :: cs, pat => startsWithL pat (c :: cs) || containsL cs pat

/-- JS `indexOf` proper: `-1` when absent. -/
def jsIndexOf (s pat : String) : ℤ :=
  match idxOfL s.data pat.data with
  | some i => (i : ℤ)
  | none => -1

/-- Fuel-driven splitting worker for `jsSplitL` (separator known nonempty). -/
def jsSplitGo (sep : List Char) : ℕ → List Char → List (List Char)
  | _, [] => [[]]
  | 0, l => [l]
  | f + 1, c :: cs =>
    if startsWithL sep (c :: cs) then [] :: jsSplitGo sep f ((c :: cs).drop sep.length)
    else ((jsSplitGo sep f cs).modifyHead (c :: ·))

/-- JS `String.prototype.split` with a plain-string separator. -/
def jsSplitL (l sep : List Char) : List (List Char) :=
  if sep = [] then l.map (fun c => [c]) else jsSplitGo sep l.length l

/-- Remove trailing `'0'` characters (the regex `/0+$/` replaced by `''`). -/
def stripTrailingZeros (l : List Char) : List Char :=
  (l.reverse.dropWhile (· = '0')).reverse

/-- Suffix of `l` strictly after the last occurrence of the character `c`
(used to model the greedy `.*` of `/\((.*)\)/`). -/
def afterLastL (c : Char) (l : List Char) : List Char :=
  (l.reverse.takeWhile (· ≠ c)).reverse

/-- `hasPair p q l` holds when the two-character string `pq` occurs in `l`. -/
def hasPair (p q : Char) : List Char → Bool
  | x :: y :: r => (x = p && y = q) || hasPair p q (y :: r)
  | _ => false

/-- Fuel-driven worker modelling the global regex replace
`.replace(/(\d{3})(?=\d)/g, '$1' + thousand)`: after any three consecutive
digits that are followed by a further digit, the separator is inserted and
scanning resumes after the three digits. -/
def insertSepAux (sep : List Char) : ℕ → List Char → List Char
  | 0, l => l
  | f + 1, a :: b :: c :: d :: rest =>
    if a.isDigit && b.isDigit && c.isDigit && d.isDigit then
      a :: b :: c :: (sep ++ insertSepAux sep f (d :: rest))
    else a :: insertSepAux sep f (b :: c :: d :: rest)
  | _ + 1, l => l

/-- Thousands-separator insertion (see `insertSepAux`). -/
def insertSep (sep l : List Char) : List Char := insertSepAux sep l.length l

/-- Left-pad a digit list with `'0'` to length `p` (fixed-decimal rendering). -/
def padZeros (p : ℕ) (l : List Char) : List Char :=
  List.replicate (p - l.length) '0' ++ l

/-! ### JS numeric-string parsing primitives -/

/-- The components recognised by JS `parseFloat`: sign, integer digits,
fractional digits, and the count of fractional digits.  `none` models `NaN`.
(Exponent notation cannot survive the cruft-stripping step for the
separators in use, so it is not modelled.) -/
def parseFloatParts (l : List Char) : Option (Bool × ℕ × ℕ × ℕ) :=
  let l1 := l.dropWhile (·.isWhitespace)
  let neg := l1.head? = some '-'
  let l2 := if l1.head? = some '-' ∨ l1.head? = some '+' then l1.tail else l1
  let ds := l2.takeWhile (·.isDigit)
  let rest := l2.drop ds.length
  if rest.head? = some '.' then
    let fs := rest.tail.takeWhile (·.isDigit)
    if ds.length = 0 ∧ fs.length = 0 then none
    else some (neg, parseNatL ds, parseNatL fs, fs.length)
  else if ds.length = 0 then none else some (neg, parseNatL ds, 0, 0)

/-- Numeric value of `parseFloatParts` output. -/
def floatPartsVal (t : Bool × ℕ × ℕ × ℕ) : ℚ :=
  (if t.1 then -1 else 1) * ((t.2.1 : ℚ) + (t.2.2.1 : ℚ) / 10 ^ t.2.2.2)

/-- JS `parseFloat`. -/
def parseFloatL (l : List Char) : Option ℚ := (parseFloatParts l).map floatPartsVal

/-- JS `parseInt(s, 10)`: leading whitespace, optional sign, then the maximal
leading run of digits; `none` models `NaN`. -/
def parseIntL (l : List Char) : Option ℤ :=
  let l1 := l.dropWhile (·.isWhitespace)
  let neg := l1.head? = some '-'
  let l2 := if l1.head? = some '-' ∨ l1.head? = some '+' then l1.tail else l1
  let ds := l2.takeWhile (·.isDigit)
  if ds.length = 0 then none
  else some ((if neg then -1 else 1) * (parseNatL ds : ℤ))

/-! ### Configuration (the `Settings` object) -/

/-- The library's settings record.  `precision` is kept as a natural number
(the spec's invariant: a non-negative integer); `round` is the integer sign
selecting the rounding direction. -/
structure Settings where
  symbol : String
  format : String
  decimal : String
  thousand : String
  precision : ℕ
  grouping : ℕ
  stripZeros : Bool
  fallback : ℚ
  round : ℤ
deriving DecidableEq

/-- A per-call options object: any subset of the settings fields. -/
structure PartialSettings where
  symbol : Option String := none
  format : Option String := none
  decimal : Option String := none
  thousand : Option String := none
  precision : Option ℕ := none
  grouping : Option ℕ := none
  stripZeros : Option Bool := none
  fallback : Option ℚ := none
  round : Option ℤ := none

/-- The library's default settings object. -/
def settings : Settings :=
  { symbol := "$"
    format := "%s%v"
    decimal := "."
    thousand := ","
    precision := 2
    grouping := 3
    stripZeros := false
    fallback := 0
    round := 0 }

/-- `objectAssign({}, glob, opts)`: a fresh record with the global defaults
shallow-overridden by the fields present in `opts`.  The target of the JS
`objectAssign` call is a fresh literal `{}`, so `glob` is only read. -/
def mergedOpts (glob : Settings) (opts : PartialSettings) : Settings :=
  { symbol := opts.symbol.getD glob.symbol
    format := opts.format.getD glob.format
    decimal := opts.decimal.getD glob.decimal
    thousand := opts.thousand.getD glob.thousand
    precision := opts.precision.getD glob.precision
    grouping := opts.grouping.getD glob.grouping
    stripZeros := opts.stripZeros.getD glob.stripZeros
    fallback := opts.fallback.getD glob.fallback
    round := opts.round.getD glob.round }

/-! ### Decimal-safe rounding (`checkPrecision`, `toFixed`) -/

/-- JS `Math.round`: round half away from... precisely, `⌊x + 1/2⌋`. -/
def jsRound (q : ℚ) : ℤ := ⌊q + 1 / 2⌋

/-- The `1e-11` compensation epsilon of `toFixed`. -/
def eps : ℚ := 1 / 10 ^ 11

/-- `checkPrecision(val, base)`: `Math.round(Math.abs(val))`.  The `isNaN`
fallback branch of the source cannot fire for rational inputs, so `base` is
unused in the model (it is kept for signature fidelity). -/
def checkPrecision (val : ℚ) (_base : ℕ) : ℕ := (jsRound |val|).toNat

/-- The rounding primitive selected by the direction flag: `Math.ceil` when
positive, `Math.floor` when negative, `Math.round` otherwise (also when the
argument is omitted). -/
def selRound (round : ℤ) (q : ℚ) : ℤ :=
  if 0 < round then ⌈q⌉ else if round < 0 then ⌊q⌋ else jsRound q

/-- Fixed-decimal rendering of the exact rational `n / 10^p` with `p` digits
after the point (the behaviour of native `toFixed(p)` on such a value). -/
def renderFixedInt (n : ℤ) (p : ℕ) : String :=
  ⟨(if n < 0 then ['-'] else []) ++ natDigits (n.natAbs / 10 ^ p) ++
    (if 0 < p then '.' :: padZeros p (natDigits (n.natAbs % 10 ^ p)) else [])⟩

/-- `toFixed(value, precision, round)` with the global settings record
`glob` supplying the default precision: scale by `10^precision`, add the
epsilon, apply the selected rounding primitive, scale back down, and render
with `precision` fixed decimals. -/
def toFixedG (glob : Settings) (value : ℚ) (precision : ℚ) (round : ℤ) : String :=
  let p := checkPrecision precision glob.precision
  renderFixedInt (selRound round ((value + eps) * 10 ^ p)) p

/-- Public `toFixed` (global settings = the default `settings` object). -/
def toFixed (value : ℚ) (precision : ℚ) (round : ℤ) : String :=
  toFixedG settings value precision round

/-! ### Unformat (parsing) -/

/-- The character class kept by the cruft-stripping regex
`new RegExp('[^0-9-(-)-' + decimal + ']', 'g')`: digits, the minus sign, the
two parentheses (the `(-)` range contributes exactly `'('` and `')'`), and
every character of the decimal separator. -/
def keepChars (decimal : String) (c : Char) : Bool :=
  c.isDigit || c = '-' || c = '(' || c = ')' || decimal.data.contains c

/-- Whether a parenthesised group body (the text strictly between `'('` and
the first following `')'`) is matched by `([-]*\d*[^)]?\d+)`: after the
leading minus signs, the remainder must be nonempty, end in a digit, and
contain at most one non-digit character (the optional `[^)]`). -/
def parenBodyOk (content : List Char) : Bool :=
  let t := content.dropWhile (· = '-')
  !t.isEmpty && (match t.getLast? with
    | some c => c.isDigit
    | none => false) && (t.filter (fun c => !c.isDigit)).length ≤ 1

/-- Fuel-driven scanner modelling the global replace
`.replace(/\(([-]*\d*[^)]?\d+)\)/g, '-$1')`: at each `'('`, the candidate
match extends to the first `')'` (no pattern atom can consume `')'`); on a
match the group is re-emitted behind a minus sign and scanning resumes after
the `')'`, otherwise scanning resumes after the `'('`. -/
def parenNegateAux : ℕ → List Char → List Char
  | 0, l => l
  | _ + 1, [] => []
  | f + 1, c :: rest =>
    if c = '(' then
      let content := rest.takeWhile (· ≠ ')')
      match rest.dropWhile (· ≠ ')') with
      | ')' :: after =>
        if parenBodyOk content then '-' :: (content ++ parenNegateAux f after)
        else '(' :: parenNegateAux f rest
      | _ => '(' :: parenNegateAux f rest
    else c :: parenNegateAux f rest

/-- See `parenNegateAux`. -/
def parenNegate (l : List Char) : List Char := parenNegateAux l.length l

/-- The non-global replace `.replace(/\((.*)\)/, '')`: the match starts at
the first `'('` that is followed (anywhere later) by a `')'` and, `.*` being
greedy, extends to the last `')'` of the string; the whole match is removed. -/
def removeParensL : List Char → List Char
  | [] => []
  | c :: rest =>
    if c = '(' then
      if rest.contains ')' then afterLastL ')' rest
      else c :: removeParensL rest
    else c :: removeParensL rest

/-- The cleaned string built inside `unformat`: strip cruft, normalise the
decimal separator to `'.'` (first occurrence, as JS string-pattern `replace`
does), rewrite parenthesised numeric groups to negatives, and drop a
remaining non-numeric parenthesised group. -/
def cleanedValueString (value : String) (decimal : String) : List Char :=
  removeParensL (parenNegate (replaceFirstL (value.data.filter (keepChars decimal)) decimal.data ['.']))

/-- Core of `unformat` on a string value: the sign is negative exactly when
the cleaned string contains an odd number of minus signs (the source's
`(match(minus-regex) || 2).length % 2` computes an even/falsy value when
there is no minus sign, so zero occurrences count as non-negative), the
magnitude is
`parseFloat` of the cleaned string with all minus signs removed, and a `NaN`
magnitude falls back to `fallback`. -/
def unformatCore (value : String) (decimal : String) (fallback : ℚ) : ℚ :=
  let cleaned := cleanedValueString value decimal
  let negative := cleaned.count '-' % 2 = 1
  let absUnformatted := parseFloatL (cleaned.filter (fun c => c ≠ '-'))
  let unformatted := absUnformatted.map (fun v => v * (if negative then -1 else 1))
  unformatted.getD fallback

/-- `unformat` with the global settings record `glob` supplying defaults. -/
def unformatG (glob : Settings) (value : String) (decimal : Option String)
    (fallback : Option ℚ) : ℚ :=
  unformatCore value (decimal.getD glob.decimal) (fallback.getD glob.fallback)

/-- Public `unformat` (scalar string input; numeric and array inputs of the
source are outside the string-parsing pipeline this development studies). -/
def unformat (value : String) (decimal : String := settings.decimal)
    (fallback : ℚ := settings.fallback) : ℚ :=
  unformatCore value decimal fallback

/-! ### Number formatting -/

/-- `stripInsignificantZeros(str, decimal)`.  When the formatted string does
not contain the decimal separator, `parts[1]` is `undefined` and the
`.replace` call throws a `TypeError`, modelled by `none`. -/
def stripInsignificantZeros (str : String) (decimal : String) : Option String :=
  match jsSplitL str.data decimal.data with
  | integerPart :: decimalPart :: _ =>
    let dp := stripTrailingZeros decimalPart
    some ⟨if 0 < dp.length then integerPart ++ decimal.data ++ dp else integerPart⟩
  | _ => none

/-- The grouped integer part: a leading partial group of `base.length % 3`
digits (when the digit count exceeds three), then the separator after every
three digits (the regex `/(\d{3})(?=\d)/g`). -/
def groupDigits (thousand : List Char) (base : List Char) : List Char :=
  let md := if base.length > 3 then base.length % 3 else 0
  (if md ≠ 0 then base.take md ++ thousand else []) ++ insertSep thousand (base.drop md)

/-- Everything of `formatNumber` after the sign: the grouped digit string of
`parseInt(tf1, 10)` (rendered back to a string, `'NaN'` when the parse
fails), then, when `precision > 0`, the decimal separator and the fragment
after `'.'` of `tf2` (`undefined` when missing, as in JS). -/
def numberBody (o : Settings) (tf1 tf2 : String) : List Char :=
  let base := ((parseIntL tf1.data).map intToStringL).getD "NaN".data
  groupDigits o.thousand.data base ++
    (if 0 < o.precision then
      o.decimal.data ++ (((jsSplitL tf2.data ['.']).get? 1).getD "undefined".data)
    else [])

/-- The `formatted` string of `formatNumber` (before zero-stripping): the
sign prefix comes from `number < 0`; the magnitude is formatted from
`toFixed(|number|, precision, round)` for the integer part and from
`toFixed(|number|, precision)` — the rounding direction argument omitted,
hence nearest rounding — for the decimal part. -/
def formatNumberStr (glob o : Settings) (number : ℚ) : List Char :=
  (if number < 0 then ['-'] else []) ++
    numberBody o (toFixedG glob |number| o.precision o.round) (toFixedG glob |number| o.precision 0)

/-- `formatNumber` on a merged options record `o` (`none` = the call throws,
which happens exactly when `stripZeros` is set and the formatted string does
not contain the decimal separator). -/
def formatNumberWith (glob o : Settings) (number : ℚ) : Option String :=
  if o.stripZeros then stripInsignificantZeros ⟨formatNumberStr glob o number⟩ o.decimal
  else some ⟨formatNumberStr glob o number⟩

/-- `formatNumber(number, opts)` reading the global settings `glob`. -/
def formatNumberG (glob : Settings) (number : ℚ) (opts : PartialSettings) : Option String :=
  formatNumberWith glob (mergedOpts glob opts) number

/-- Public `formatNumber`. -/
def formatNumber (number : ℚ) (opts : PartialSettings := {}) : Option String :=
  formatNumberG settings number opts

/-! ### Currency formatting -/

/-- The positive/negative/zero format template triple. -/
structure CurrencyFormat where
  pos : String
  neg : String
  zero : String
deriving DecidableEq

/-- `checkCurrencyFormat(format)` for a string format: when the string
contains `%v`, the negative template is derived by removing the first literal
minus sign and replacing the first `%v` by `-%v`, and the zero template is
the string itself.  When `%v` is absent the source returns the string
unchanged; downstream property accesses (`formats.pos` …) then yield
`undefined` and the subsequent `.replace` throws, modelled by `none`. -/
def checkCurrencyFormat (format : String) : Option CurrencyFormat :=
  if containsL format.data "%v".data then
    some { pos := format
           neg := ⟨replaceFirstL (replaceFirstL format.data "-".data [] ) "%v".data "-%v".data⟩
           zero := format }
  else none

/-- Template selection and placeholder substitution of `formatMoney`: the
first `%s` is replaced by the symbol, then the first `%v` of the result by
the formatted value. -/
def moneySubst (useFormat : String) (symbol : String) (fv : String) : String :=
  ⟨replaceFirstL (replaceFirstL useFormat.data "%s".data symbol.data) "%v".data fv.data⟩

/-- `formatMoney` on a merged options record. -/
def formatMoneyWith (glob o : Settings) (amount : ℚ) : Option String :=
  (checkCurrencyFormat o.format).bind fun formats =>
    let useFormat := if 0 < amount then formats.pos
      else if amount < 0 then formats.neg else formats.zero
    (formatNumberWith glob o |amount|).map fun fv => moneySubst useFormat o.symbol fv

/-- `formatMoney(amount, opts)` reading the global settings `glob`. -/
def formatMoneyG (glob : Settings) (amount : ℚ) (opts : PartialSettings) : Option String :=
  formatMoneyWith glob (mergedOpts glob opts) amount

/-- Public `formatMoney`. -/
def formatMoney (amount : ℚ) (opts : PartialSettings := {}) : Option String :=
  formatMoneyG settings amount opts

/-! ### Column formatting -/

/-- First-pass body of `formatColumn` for one (non-nested) element: numbers
pass through `unformat` unchanged, strings are parsed with the effective
decimal separator and — the source calling `unformat(val, opts.decimal)` with
two arguments — the *global* fallback value; the cleaned value is then
formatted exactly as in `formatMoney`. -/
def columnItem (glob o : Settings) (formats : CurrencyFormat) (v : ℚ ⊕ String) : Option String :=
  let val := match v with
    | Sum.inl q => q
    | Sum.inr s => unformatCore s o.decimal glob.fallback
  let useFormat := if 0 < val then formats.pos
    else if val < 0 then formats.neg else formats.zero
  (formatNumberWith glob o |val|).map fun fv => moneySubst useFormat o.symbol fv

/-- The running maximum of rendered lengths tracked during the first pass. -/
def colMaxLength (formatted : List String) : ℕ :=
  formatted.foldl (fun m s => max m s.length) 0

/-- Second-pass padding of one formatted string: shorter-than-maximum strings
receive `maxLength - length` spaces, inserted after the first occurrence of
the symbol when the positive template places `%s` before `%v`, and at the
start of the string otherwise. -/
def padColumnItem (o : Settings) (padAfterSymbol : Bool) (maxLength : ℕ) (val : String) : String :=
  if val.length < maxLength then
    if padAfterSymbol then
      ⟨replaceFirstL val.data o.symbol.data (o.symbol.data ++ List.replicate (maxLength - val.length) ' ')⟩
    else ⟨List.replicate (maxLength - val.length) ' ' ++ val.data⟩
  else val

/-- `formatColumn` on a merged options record, for a flat list of numbers or
numeric strings (the nested-array recursion of the source is outside the
scope of the flat-list claims studied here). -/
def formatColumnWith (glob o : Settings) (list : List (ℚ ⊕ String)) : Option (List String) :=
  (checkCurrencyFormat o.format).bind fun formats =>
    let padAfterSymbol := jsIndexOf formats.pos "%s" < jsIndexOf formats.pos "%v"
    (list.mapM (columnItem glob o formats)).map fun formatted =>
      let maxLength := colMaxLength formatted
      formatted.map (padColumnItem o padAfterSymbol maxLength)

/-- `formatColumn(list, opts)` reading the global settings `glob`. -/
def formatColumnG (glob : Settings) (list : List (ℚ ⊕ String)) (opts : PartialSettings) :
    Option (List String) :=
  formatColumnWith glob (mergedOpts glob opts) list

/-- Public `formatColumn`. -/
def formatColumn (list : List (ℚ ⊕ String)) (opts : PartialSettings := {}) :
    Option (List String) :=
  formatColumnG settings list opts

/-! ### State-passing wrappers

The only shared mutable resource of the library is the module-level
`settings` object.  Each wrapper below threads that state explicitly: the
result settings record is the one the call leaves behind.  In the source,
every write performed by a public operation targets a fresh object literal
(`objectAssign({}, settings, opts)`), so the translation leaves the state
untouched. -/

/-- State-passing `unformat`. -/
def unformatS (value : String) (decimal : Option String) (fallback : Option ℚ)
    (st : Settings) : ℚ × Settings :=
  (unformatG st value decimal fallback, st)

/-- State-passing `toFixed`. -/
def toFixedS (value : ℚ) (precision : ℚ) (round : ℤ) (st : Settings) : String × Settings :=
  (toFixedG st value precision round, st)

/-- State-passing `formatNumber`. -/
def formatNumberS (number : ℚ) (opts : PartialSettings) (st : Settings) :
    Option String × Settings :=
  (formatNumberG st number opts, st)

/-- State-passing `formatMoney`. -/
def formatMoneyS (amount : ℚ) (opts : PartialSettings) (st : Settings) :
    Option String × Settings :=
  (formatMoneyG st amount opts, st)

/-- State-passing `formatColumn`. -/
def formatColumnS (list : List (ℚ ⊕ String)) (opts : PartialSettings) (st : Settings) :
    Option (List String) × Settings :=
  (formatColumnG st list opts, st)

/-- Modelled from the spec: the derived negative template as the
specification sentence reads — "removing any literal minus sign already
present in the template and inserting a minus immediately before the `%v`
placeholder" — i.e. with *every* minus sign removed.  Used to compare the
spec's wording with the source's first-occurrence `replace`. -/
def specNegTemplate (format : String) : String :=
  ⟨replaceFirstL (format.data.filter (fun c => c ≠ '-')) "%v".data "-%v".data⟩

/-! ## Lemmas about digit strings -/

theorem natDigitsAux_eq_of_lt :
    ∀ (n f g : ℕ), n < f → n < g → natDigitsAux f n = natDigitsAux g n := by
  intro n
  induction n using Nat.strong_induction_on with
  | _ n ih =>
    intro f g hf hg
    cases f with
    | zero => omega
    | succ f =>
      cases g with
      | zero => omega
      | succ g =>
        by_cases h : n < 10
        · simp [natDigitsAux, h]
        · have hdiv : n / 10 < n := Nat.div_lt_self (by omega) (by norm_num)
          simp only [natDigitsAux, if_neg h]
          rw [ih (n / 10) hdiv f g (by omega) (by omega)]

theorem natDigits_eq_aux (f n : ℕ) (h : n < f) : natDigits n = natDigitsAux f n :=
  natDigitsAux_eq_of_lt n (n + 1) f (by omega) h

theorem digitVal_digitChar (n : ℕ) : digitVal (digitChar n) = n % 10 := by
  have hk : n % 10 < 10 := Nat.mod_lt _ (by norm_num)
  unfold digitChar digitVal
  generalize n % 10 = k at *
  interval_cases k <;> decide

theorem digitChar_isDigit (n : ℕ) : (digitChar n).isDigit = true := by
  have hk : n % 10 < 10 := Nat.mod_lt _ (by norm_num)
  unfold digitChar
  generalize n % 10 = k at *
  interval_cases k <;> decide

theorem parseNatL_foldl (l : List Char) (a : ℕ) :
    l.foldl (fun a c => 10 * a + digitVal c) a = a * 10 ^ l.length + parseNatL l := by
  induction l generalizing a with
  | nil => simp [parseNatL]
  | cons c cs ih =>
    simp only [List.foldl_cons, List.length_cons, parseNatL]
    rw [ih (10 * a + digitVal c), ih (10 * 0 + digitVal c)]
    ring

theorem parseNatL_append (l1 l2 : List Char) :
    parseNatL (l1 ++ l2) = parseNatL l1 * 10 ^ l2.length + parseNatL l2 := by
  unfold parseNatL
  rw [List.foldl_append]
  exact parseNatL_foldl l2 _

theorem parseNatL_natDigitsAux (f : ℕ) : ∀ n : ℕ, n < f → parseNatL (natDigitsAux f n) = n := by
  induction f using Nat.strong_induction_on with
  | _ f ih =>
    intro n hn
    cases f with
    | zero => omega
    | succ f =>
      by_cases h : n < 10
      · simp only [natDigitsAux, if_pos h]
        simp [parseNatL, digitVal_digitChar, Nat.mod_eq_of_lt h]
      · have hdiv : n / 10 < n := Nat.div_lt_self (by omega) (by norm_num)
        simp only [natDigitsAux, if_neg h]
        rw [parseNatL_append, ih f (by omega) (n / 10) (by omega)]
        simp [parseNatL, digitVal_digitChar]
        omega

theorem parseNatL_natDigits (n : ℕ) : parseNatL (natDigits n) = n :=
  parseNatL_natDigitsAux (n + 1) n (by omega)

theorem natDigitsAux_all_digits (f : ℕ) :
    ∀ (n : ℕ), ∀ c ∈ natDigitsAux f n, c.isDigit = true := by
  induction f with
  | zero => intro n c hc; simp [natDigitsAux] at hc
  | succ f ih =>
    intro n c hc
    by_cases h : n < 10
    · simp only [natDigitsAux, if_pos h, List.mem_singleton] at hc
      subst hc; exact digitChar_isDigit n
    · simp only [natDigitsAux, if_neg h, List.mem_append, List.mem_singleton] at hc
      rcases hc with hc | hc
      · exact ih (n / 10) c hc
      · subst hc; exact digitChar_isDigit (n % 10)

theorem natDigits_all_digits (n : ℕ) : ∀ c ∈ natDigits n, c.isDigit = true :=
  natDigitsAux_all_digits (n + 1) n

theorem natDigitsAux_length_le (f : ℕ) :
    ∀ (n k : ℕ), n < f → 0 < k → n < 10 ^ k → (natDigitsAux f n).length ≤ k := by
  induction f using Nat.strong_induction_on with
  | _ f ih =>
    intro n k hn hk hnk
    cases f with
    | zero => omega
    | succ f =>
      by_cases h : n < 10
      · simp only [natDigitsAux, if_pos h, List.length_singleton]
        omega
      · have hdiv : n / 10 < n := Nat.div_lt_self (by omega) (by norm_num)
        simp only [natDigitsAux, if_neg h, List.length_append, List.length_singleton]
        cases k with
        | zero => omega
        | succ k =>
          have hk2 : 0 < k := by
            rcases Nat.eq_zero_or_pos k with hk0 | hk0
            · subst hk0; simp at hnk; omega
            · exact hk0
          have : n / 10 < 10 ^ k := by
            rw [Nat.div_lt_iff_lt_mul (by norm_num : (0:ℕ) < 10)]
            calc n < 10 ^ (k + 1) := hnk
            _ = 10 ^ k * 10 := by ring
          have := ih f (by omega) (n / 10) k (by omega) hk2 this
          omega

theorem natDigits_length_le (n k : ℕ) (hk : 0 < k) (h : n < 10 ^ k) :
    (natDigits n).length ≤ k :=
  natDigitsAux_length_le (n + 1) n k (by omega) hk h

theorem natDigits_ne_nil (n : ℕ) : natDigits n ≠ [] := by
  by_cases h : n < 10
  · simp [natDigits, natDigitsAux, h]
  · simp [natDigits, natDigitsAux, h]

/-! ## Lemmas about string search and replacement -/

theorem startsWithL_refl_append (pat rest : List Char) :
    startsWithL pat (pat ++ rest) = true := by
  induction pat with
  | nil => rfl
  | cons p ps ih => simp [startsWithL, ih]

theorem startsWithL_drop (pat : List Char) :
    ∀ l, startsWithL pat l = true → pat ++ l.drop pat.length = l := by
  induction pat with
  | nil => intro l _; simp
  | cons p ps ih =>
    intro l h
    cases l with
    | nil => simp [startsWithL] at h
    | cons c cs =>
      simp only [startsWithL, Bool.and_eq_true, decide_eq_true_eq] at h
      obtain ⟨rfl, h2⟩ := h
      simpa using ih cs h2

theorem startsWithL_length_le (pat : List Char) :
    ∀ l, startsWithL pat l = true → pat.length ≤ l.length := by
  induction pat with
  | nil => intro l _; simp
  | cons p ps ih =>
    intro l h
    cases l with
    | nil => simp [startsWithL] at h
    | cons c cs =>
      simp only [startsWithL, Bool.and_eq_true] at h
      have := ih cs h.2
      simp; omega

theorem replaceFirstL_self (pat : List Char) : ∀ l, replaceFirstL l pat pat = l := by
  intro l
  induction l with
  | nil =>
    by_cases h : pat = []
    · simp [replaceFirstL, h]
    · simp [replaceFirstL, h]
  | cons c cs ih =>
    by_cases h : startsWithL pat (c :: cs) = true
    · simp only [replaceFirstL, if_pos h]
      exact startsWithL_drop pat (c :: cs) h
    · simp only [replaceFirstL, if_neg h, ih]

theorem replaceFirstL_single (c : Char) (rep : List Char) :
    ∀ (A B : List Char), c ∉ A → replaceFirstL (A ++ c :: B) [c] rep = A ++ rep ++ B := by
  intro A
  induction A with
  | nil =>
    intro B _
    have h : startsWithL [c] (c :: B) = true := by simp [startsWithL]
    simp [replaceFirstL, h]
  | cons a A' ih =>
    intro B hmem
    have hac : ¬(c = a) := fun h => hmem (by simp [h])
    have h : startsWithL [c] (a :: (A' ++ c :: B)) = false := by
      simp [startsWithL, hac]
    simp only [List.cons_append, replaceFirstL, List.append_eq, h, Bool.false_eq_true,
      if_false]
    rw [ih B (fun h => hmem (List.mem_cons_of_mem a h))]

theorem replaceFirstL_single_of_not_mem (c : Char) (rep : List Char) :
    ∀ l, c ∉ l → replaceFirstL l [c] rep = l := by
  intro l
  induction l with
  | nil => intro _; simp [replaceFirstL]
  | cons a as ih =>
    intro h
    have hac : ¬(c = a) := fun hh => h (by simp [hh])
    have hs : startsWithL [c] (a :: as) = false := by simp [startsWithL, hac]
    simp only [replaceFirstL, hs, Bool.false_eq_true, if_false]
    rw [ih (fun hh => h (List.mem_cons_of_mem a hh))]

theorem hasPair_of_not_mem (p q : Char) : ∀ l : List Char, p ∉ l → hasPair p q l = false := by
  intro l
  induction l with
  | nil => intro _; rfl
  | cons x xs ih =>
    intro h
    cases xs with
    | nil => rfl
    | cons y ys =>
      have hxp : ¬(x = p) := fun hh => h (by simp [hh])
      simp only [hasPair, hxp, decide_eq_false, Bool.false_and, Bool.false_or]
      exact ih (fun hh => h (List.mem_cons_of_mem x hh))

theorem hasPair_append_of_not_mem (p q : Char) :
    ∀ (X Y : List Char), p ∉ X → hasPair p q Y = false → hasPair p q (X ++ Y) = false := by
  intro X
  induction X with
  | nil => intro Y _ hY; simpa using hY
  | cons x X' ih =>
    intro Y hX hY
    have hxp : ¬(x = p) := fun hh => hX (by simp [hh])
    have hrest : hasPair p q (X' ++ Y) = false :=
      ih Y (fun hh => hX (List.mem_cons_of_mem x hh)) hY
    cases hXY : X' ++ Y with
    | nil => simp [List.cons_append, hXY, hasPair]
    | cons z r =>
      simp only [List.cons_append, hXY, hasPair, hxp, decide_eq_false, Bool.false_and,
        Bool.false_or]
      rw [← hXY]; exact hrest

theorem replaceFirstL_pair (p q : Char) (hpq : p ≠ q) (rep : List Char) :
    ∀ (A B : List Char), hasPair p q A = false →
      replaceFirstL (A ++ p :: q :: B) [p, q] rep = A ++ rep ++ B := by
  intro A
  induction A with
  | nil =>
    intro B _
    have h : startsWithL [p, q] (p :: q :: B) = true := by simp [startsWithL]
    simp [replaceFirstL, h]
  | cons a A' ih =>
    intro B hA
    have hstep : startsWithL [p, q] (a :: (A' ++ p :: q :: B)) = false := by
      cases A' with
      | nil =>
        have hqp : ¬(q = p) := fun hh => hpq hh.symm
        simp [startsWithL, hqp]
      | cons x X =>
        have hA1 : ¬(a = p ∧ x = q) := by
          intro ⟨h1, h2⟩
          simp [hasPair, h1, h2] at hA
        by_cases hap : a = p
        · have hxq : ¬(q = x) := fun hh => hA1 ⟨hap, hh.symm⟩
          simp [startsWithL, hxq]
        · have hpa : ¬(p = a) := fun hh => hap hh.symm
          simp [startsWithL, hpa]
    simp only [List.cons_append, replaceFirstL, List.append_eq, hstep, Bool.false_eq_true,
      if_false]
    have hA' : hasPair p q A' = false := by
      cases A' with
      | nil => rfl
      | cons x X =>
        simp only [hasPair, Bool.or_eq_false_iff] at hA
        exact hA.2
    rw [ih B hA']

theorem replaceFirstL_pair_of_not_occur (p q : Char) (rep : List Char) :
    ∀ l, hasPair p q l = false → replaceFirstL l [p, q] rep = l := by
  intro l
  induction l with
  | nil => intro _; simp [replaceFirstL]
  | cons c cs ih =>
    intro h
    have hstep : startsWithL [p, q] (c :: cs) = false := by
      cases cs with
      | nil => simp [startsWithL]
      | cons x xs =>
        have h1 : ¬(c = p ∧ x = q) := by
          intro ⟨ha, hb⟩
          simp [hasPair, ha, hb] at h
        by_cases hcp : c = p
        · have hxq : ¬(q = x) := fun hh => h1 ⟨hcp, hh.symm⟩
          simp [startsWithL, hxq]
        · have hpc : ¬(p = c) := fun hh => hcp hh.symm
          simp [startsWithL, hpc]
    simp only [replaceFirstL, hstep, Bool.false_eq_true, if_false]
    have hcs : hasPair p q cs = false := by
      cases cs with
      | nil => rfl
      | cons x xs =>
        simp only [hasPair, Bool.or_eq_false_iff] at h
        exact h.2
    rw [ih hcs]

theorem containsL_append_pat : ∀ (A pat B : List Char), containsL (A ++ pat ++ B) pat = true := by
  intro A
  induction A with
  | nil =>
    intro pat B
    cases pat with
    | nil =>
      cases B with
      | nil => rfl
      | cons b bs => simp [containsL, startsWithL]
    | cons p ps =>
      simp only [containsL, List.nil_append, Bool.or_eq_true]
      exact Or.inl (by simp only [List.append_eq, ← List.cons_append]
                       exact startsWithL_refl_append _ _)
  | cons a A' ih =>
    intro pat B
    simp only [containsL, List.cons_append, Bool.or_eq_true]
    exact Or.inr (by simp only [List.append_eq]; exact ih pat B)

/-! ## Lemmas about character classes -/

theorem digit_ne_of_ne (c d : Char) (h : c.isDigit = true) (hd : d.isDigit = false) :
    c ≠ d := by
  intro he
  rw [he, hd] at h
  exact Bool.false_ne_true h

theorem digit_not_whitespace (c : Char) (h : c.isDigit = true) : c.isWhitespace = false := by
  have h0 : c ≠ ' ' := by intro hc; rw [hc] at h; exact absurd h (by decide)
  have h1 : c ≠ '\t' := by intro hc; rw [hc] at h; exact absurd h (by decide)
  have h2 : c ≠ '\r' := by intro hc; rw [hc] at h; exact absurd h (by decide)
  have h3 : c ≠ '\n' := by intro hc; rw [hc] at h; exact absurd h (by decide)
  simp [Char.isWhitespace, h0, h1, h2, h3]

/-! ## Lemmas about takeWhile / dropWhile / splitting -/

theorem takeWhile_all (p : Char → Bool) :
    ∀ l : List Char, (∀ c ∈ l, p c = true) → l.takeWhile p = l := by
  intro l
  induction l with
  | nil => intro _; rfl
  | cons c cs ih =>
    intro h
    rw [List.takeWhile_cons, h c (by simp), ih (fun x hx => h x (by simp [hx]))]
    simp

theorem takeWhile_append_stop (p : Char → Bool) (l1 : List Char) (x : Char) (l2 : List Char)
    (h : ∀ c ∈ l1, p c = true) (hx : p x = false) :
    (l1 ++ x :: l2).takeWhile p = l1 := by
  induction l1 with
  | nil => simp [List.takeWhile_cons, hx]
  | cons c cs ih =>
    rw [List.cons_append, List.takeWhile_cons, h c (by simp)]
    rw [ih (fun a ha => h a (by simp [ha]))]
    simp

theorem jsSplitGo_no_sep (c : Char) : ∀ (f : ℕ) (l : List Char), c ∉ l →
    jsSplitGo [c] f l = [l] := by
  intro f
  induction f with
  | zero =>
    intro l _
    cases l with
    | nil => rfl
    | cons a as => rfl
  | succ f ih =>
    intro l h
    cases l with
    | nil => rfl
    | cons a as =>
      have hca : ¬(c = a) := fun hh => h (by simp [hh])
      have hs : startsWithL [c] (a :: as) = false := by simp [startsWithL, hca]
      simp only [jsSplitGo, hs, Bool.false_eq_true, if_false]
      rw [ih as (fun hh => h (List.mem_cons_of_mem a hh))]
      rfl

theorem jsSplitGo_dot (F : List Char) (hF : '.' ∉ F) :
    ∀ (D : List Char) (f : ℕ), D.length < f → '.' ∉ D →
      jsSplitGo ['.'] f (D ++ '.' :: F) = [D, F] := by
  intro D
  induction D with
  | nil =>
    intro f hf _
    cases f with
    | zero => omega
    | succ f =>
      have hs : startsWithL ['.'] ('.' :: F) = true := by simp [startsWithL]
      simp only [List.nil_append, jsSplitGo, hs, if_true, List.length_singleton,
        List.drop_succ_cons, List.drop_zero]
      rw [jsSplitGo_no_sep '.' f F hF]
  | cons d D' ih =>
    intro f hf hD
    cases f with
    | zero => omega
    | succ f =>
      have hdd : ¬('.' = d) := fun hh => hD (List.mem_cons.mpr (Or.inl hh))
      have hs : startsWithL ['.'] (d :: (D' ++ '.' :: F)) = false := by
        simp [startsWithL, hdd]
      simp only [List.cons_append, jsSplitGo, List.append_eq, hs, Bool.false_eq_true, if_false]
      rw [ih f (by simpa using Nat.lt_of_succ_lt_succ hf)
          (fun hh => hD (List.mem_cons_of_mem d hh))]
      rfl

theorem jsSplitL_dot (D F : List Char) (hD : '.' ∉ D) (hF : '.' ∉ F) :
    jsSplitL (D ++ '.' :: F) ['.'] = [D, F] := by
  unfold jsSplitL
  rw [if_neg (by simp)]
  exact jsSplitGo_dot F hF D (D ++ '.' :: F).length (by simp) hD

/-! ## Parsing rendered fixed-point strings -/

theorem parseNatL_replicate_zero (k : ℕ) : parseNatL (List.replicate k '0') = 0 := by
  induction k with
  | zero => rfl
  | succ k ih =>
    have : digitVal '0' = 0 := by decide
    simp only [List.replicate_succ, parseNatL, List.foldl_cons] at ih ⊢
    simpa [this] using ih

theorem parseNatL_padZeros (p : ℕ) (l : List Char) :
    parseNatL (padZeros p l) = parseNatL l := by
  unfold padZeros
  rw [parseNatL_append, parseNatL_replicate_zero]
  simp

theorem padZeros_length (p : ℕ) (l : List Char) (h : l.length ≤ p) :
    (padZeros p l).length = p := by
  unfold padZeros
  simp
  omega

theorem padZeros_all_digits (p : ℕ) (m : ℕ) :
    ∀ c ∈ padZeros p (natDigits m), c.isDigit = true := by
  intro c hc
  unfold padZeros at hc
  rw [List.mem_append] at hc
  rcases hc with hc | hc
  · have := List.eq_of_mem_replicate hc
    subst this; decide
  · exact natDigits_all_digits m c hc

theorem not_mem_of_all_digits (l : List Char) (h : ∀ c ∈ l, c.isDigit = true)
    (d : Char) (hd : d.isDigit = false) : d ∉ l := by
  intro hmem
  have := h d hmem
  rw [hd] at this
  exact Bool.false_ne_true this

/-! ## Parsing the strings produced by `renderFixedInt` -/

theorem renderFixedInt_data (n : ℤ) (p : ℕ) :
    (renderFixedInt n p).data = (if n < 0 then ['-'] else []) ++ natDigits (n.natAbs / 10 ^ p) ++
      (if 0 < p then '.' :: padZeros p (natDigits (n.natAbs % 10 ^ p)) else []) := rfl

theorem renderFixedInt_natCast_data (m : ℕ) (p : ℕ) :
    (renderFixedInt (m : ℤ) p).data = natDigits (m / 10 ^ p) ++
      (if 0 < p then '.' :: padZeros p (natDigits (m % 10 ^ p)) else []) := by
  rw [renderFixedInt_data, if_neg (by omega), Int.natAbs_ofNat]
  simp

theorem parseIntL_digits_append (D T : List Char) (hD : ∀ c ∈ D, c.isDigit = true)
    (hne : D ≠ []) (hT : T = [] ∨ ∃ F, T = '.' :: F) :
    parseIntL (D ++ T) = some ((parseNatL D : ℤ)) := by
  obtain ⟨d, D', rfl⟩ := List.exists_cons_of_ne_nil hne
  have hd : d.isDigit = true := hD d (by simp)
  have hdw : d.isWhitespace = false := digit_not_whitespace d hd
  unfold parseIntL
  have hdrop : (d :: D' ++ T).dropWhile (·.isWhitespace) = d :: (D' ++ T) := by
    rw [List.cons_append, List.dropWhile_cons, hdw]
    simp
  have hdm : d ≠ '-' := digit_ne_of_ne d '-' hd (by decide)
  have hdp : d ≠ '+' := digit_ne_of_ne d '+' hd (by decide)
  have hds : (d :: (D' ++ T)).takeWhile (·.isDigit) = d :: D' := by
    rcases hT with rfl | ⟨F, rfl⟩
    · rw [List.append_nil]
      exact takeWhile_all _ _ hD
    · rw [← List.cons_append]
      exact takeWhile_append_stop _ _ _ _ hD (by decide)
  simp only [hdrop, List.head?_cons, Option.some.injEq, hdm, hdp, or_self, if_false, hds]
  rw [if_neg (by simp)]
  simp [hdm]

theorem parseIntL_render_natCast (m : ℕ) (p : ℕ) :
    parseIntL (renderFixedInt (m : ℤ) p).data = some (((m / 10 ^ p : ℕ) : ℤ)) := by
  rw [renderFixedInt_natCast_data]
  rw [parseIntL_digits_append _ _ (natDigits_all_digits _) (natDigits_ne_nil _)
    (by by_cases hp : 0 < p
        · exact Or.inr ⟨_, if_pos hp⟩
        · exact Or.inl (if_neg hp))]
  rw [parseNatL_natDigits]

theorem intToStringL_natCast (k : ℕ) : intToStringL (k : ℤ) = natDigits k := by
  unfold intToStringL
  rw [if_neg (by omega), Int.natAbs_ofNat]
  simp

theorem jsSplit_render_pos (m : ℕ) (p : ℕ) (hp : 0 < p) :
    jsSplitL (renderFixedInt (m : ℤ) p).data ['.'] =
      [natDigits (m / 10 ^ p), padZeros p (natDigits (m % 10 ^ p))] := by
  rw [renderFixedInt_natCast_data, if_pos hp]
  exact jsSplitL_dot _ _
    (not_mem_of_all_digits _ (natDigits_all_digits _) '.' (by decide))
    (not_mem_of_all_digits _ (padZeros_all_digits p _) '.' (by decide))

/-! ## Rounding facts -/

theorem jsRound_intCast (z : ℤ) : jsRound (z : ℚ) = z := by
  unfold jsRound
  rw [Int.floor_int_add]
  norm_num

theorem checkPrecision_natCast (p base : ℕ) : checkPrecision (p : ℕ) base = p := by
  unfold checkPrecision
  rw [abs_of_nonneg (by positivity)]
  have : ((p : ℚ)) = ((p : ℤ) : ℚ) := by push_cast; ring
  rw [this, jsRound_intCast]
  simp

theorem selRound_zero (q : ℚ) : selRound 0 q = jsRound q := by
  simp [selRound]

theorem jsRound_nonneg (q : ℚ) (h : 0 ≤ q) : 0 ≤ jsRound q := by
  unfold jsRound
  exact Int.floor_nonneg.mpr (by linarith)

theorem selRound_nonneg (r : ℤ) (q : ℚ) (h : 0 ≤ q) : 0 ≤ selRound r q := by
  unfold selRound
  split
  · exact Int.ceil_nonneg h
  · split
    · exact Int.floor_nonneg.mpr h
    · exact jsRound_nonneg q h

theorem jsRound_dist (q : ℚ) : |((jsRound q : ℚ)) - q| ≤ 1 / 2 := by
  unfold jsRound
  have h1 : ((⌊q + 1 / 2⌋ : ℚ)) ≤ q + 1 / 2 := Int.floor_le _
  have h2 : q + 1 / 2 < (⌊q + 1 / 2⌋ : ℚ) + 1 := Int.lt_floor_add_one _
  rw [abs_le]
  constructor <;> linarith

/-! ## Evaluation lemmas for `toFixed` and `formatNumber` -/

theorem toFixedG_natPrec (glob : Settings) (v : ℚ) (p : ℕ) (r : ℤ) :
    toFixedG glob v (p : ℚ) r = renderFixedInt (selRound r ((v + eps) * 10 ^ p)) p := by
  unfold toFixedG
  rw [checkPrecision_natCast]

theorem numberBody_render (o : Settings) (m m' : ℕ) :
    numberBody o (renderFixedInt (m : ℤ) o.precision) (renderFixedInt (m' : ℤ) o.precision) =
      groupDigits o.thousand.data (natDigits (m / 10 ^ o.precision)) ++
        (if 0 < o.precision then
          o.decimal.data ++ padZeros o.precision (natDigits (m' % 10 ^ o.precision))
        else []) := by
  unfold numberBody
  rw [parseIntL_render_natCast]
  rw [Option.map_some', Option.getD_some, intToStringL_natCast]
  by_cases hp : 0 < o.precision
  · rw [jsSplit_render_pos m' o.precision hp]
    simp [hp]
  · simp [hp]

theorem formatNumberStr_eval (glob o : Settings) (x : ℚ) (m m' : ℕ)
    (h1 : selRound o.round ((|x| + eps) * 10 ^ o.precision) = (m : ℤ))
    (h2 : jsRound ((|x| + eps) * 10 ^ o.precision) = (m' : ℤ)) :
    formatNumberStr glob o x = (if x < 0 then ['-'] else []) ++
      (groupDigits o.thousand.data (natDigits (m / 10 ^ o.precision)) ++
        (if 0 < o.precision then
          o.decimal.data ++ padZeros o.precision (natDigits (m' % 10 ^ o.precision))
        else [])) := by
  unfold formatNumberStr
  rw [toFixedG_natPrec, toFixedG_natPrec, h1, selRound_zero, h2, numberBody_render]

theorem replaceFirstL_length (pat rep : List Char) :
    ∀ l, containsL l pat = true →
      (replaceFirstL l pat rep).length + pat.length = l.length + rep.length := by
  intro l
  induction l with
  | nil =>
    intro h
    simp only [containsL, decide_eq_true_eq] at h
    simp [replaceFirstL, h]
  | cons c cs ih =>
    intro h
    by_cases hs : startsWithL pat (c :: cs) = true
    · have hle := startsWithL_length_le pat (c :: cs) hs
      simp only [replaceFirstL, if_pos hs, List.length_append, List.length_drop]
      simp at hle ⊢
      omega
    · simp only [containsL, Bool.or_eq_true] at h
      rcases h with h | h
      · exact absurd h hs
      · simp only [replaceFirstL, if_neg hs, List.length_cons]
        have := ih h
        omega

/-! ## Lemmas about the unformat cleaning pipeline -/

theorem parseFloatParts_digits_dot (D F : List Char) (hD : ∀ c ∈ D, c.isDigit = true)
    (hne : D ≠ []) (hF : ∀ c ∈ F, c.isDigit = true) :
    parseFloatParts (D ++ '.' :: F) = some (false, parseNatL D, parseNatL F, F.length) := by
  obtain ⟨d, D', rfl⟩ := List.exists_cons_of_ne_nil hne
  have hd : d.isDigit = true := hD d (by simp)
  have hdw : d.isWhitespace = false := digit_not_whitespace d hd
  unfold parseFloatParts
  have hdrop : (d :: D' ++ '.' :: F).dropWhile (·.isWhitespace) = d :: (D' ++ '.' :: F) := by
    rw [List.cons_append, List.dropWhile_cons, hdw]
    simp
  have hdm : d ≠ '-' := digit_ne_of_ne d '-' hd (by decide)
  have hdp : d ≠ '+' := digit_ne_of_ne d '+' hd (by decide)
  have hds : (d :: (D' ++ '.' :: F)).takeWhile (·.isDigit) = d :: D' := by
    rw [← List.cons_append]
    exact takeWhile_append_stop _ _ _ _ hD (by decide)
  have hl2 : (if some d = some '-' ∨ some d = some '+' then (d :: (D' ++ '.' :: F)).tail
      else d :: (D' ++ '.' :: F)) = d :: (D' ++ '.' :: F) := if_neg (by simp [hdm, hdp])
  simp only [hdrop, List.head?_cons, hl2, hds]
  rw [show d :: (D' ++ '.' :: F) = (d :: D') ++ '.' :: F from by simp]
  rw [List.drop_left]
  simp only [List.head?_cons, List.tail_cons]
  rw [if_pos trivial]
  rw [takeWhile_all _ F hF]
  rw [if_neg (by simp)]
  simp [hdm]

theorem keepChars_digit (decimal : String) (c : Char) (h : c.isDigit = true) :
    keepChars decimal c = true := by
  simp [keepChars, h]

theorem filter_all_digits (pf : Char → Bool) (l : List Char)
    (h : ∀ c ∈ l, c.isDigit = true) (hpf : ∀ c : Char, c.isDigit = true → pf c = true) :
    l.filter pf = l :=
  List.filter_eq_self.mpr (fun c hc => hpf c (h c hc))

theorem filter_insertSepAux (pf : Char → Bool) (sep : List Char)
    (hsep : sep.filter pf = []) :
    ∀ (f : ℕ) (l : List Char), (insertSepAux sep f l).filter pf = l.filter pf := by
  intro f
  induction f with
  | zero => intro l; rfl
  | succ f ih =>
    intro l
    match l with
    | [] => rfl
    | [a] => rfl
    | [a, b] => rfl
    | [a, b, c] => rfl
    | a :: b :: c :: d :: rest =>
      by_cases h : (a.isDigit && b.isDigit && c.isDigit && d.isDigit) = true
      · simp only [insertSepAux, h, if_true]
        simp only [List.filter_cons, List.filter_append, hsep, ih]
        simp
      · simp only [insertSepAux, h, Bool.false_eq_true, if_false]
        simp only [List.filter_cons, ih]

theorem filter_insertSep (pf : Char → Bool) (sep l : List Char) (hsep : sep.filter pf = []) :
    (insertSep sep l).filter pf = l.filter pf :=
  filter_insertSepAux pf sep hsep l.length l

theorem filter_groupDigits (pf : Char → Bool) (sep base : List Char)
    (hsep : sep.filter pf = []) (hbase : ∀ c ∈ base, pf c = true) :
    (groupDigits sep base).filter pf = base := by
  unfold groupDigits
  rw [List.filter_append, filter_insertSep pf sep _ hsep]
  have hdrop : (base.drop (if base.length > 3 then base.length % 3 else 0)).filter pf =
      base.drop (if base.length > 3 then base.length % 3 else 0) :=
    List.filter_eq_self.mpr (fun c hc => hbase c (List.drop_subset _ _ hc))
  rw [hdrop]
  by_cases hmd : (if base.length > 3 then base.length % 3 else 0) ≠ 0
  · rw [if_pos hmd, List.filter_append, hsep, List.append_nil]
    have htake : (base.take (if base.length > 3 then base.length % 3 else 0)).filter pf =
        base.take (if base.length > 3 then base.length % 3 else 0) :=
      List.filter_eq_self.mpr (fun c hc => hbase c (List.take_subset _ _ hc))
    rw [htake, List.take_append_drop]
  · rw [if_neg hmd]
    simp only [List.filter_nil, List.nil_append]
    push_neg at hmd
    rw [hmd, List.drop_zero]

theorem parenNegateAux_id : ∀ (f : ℕ) (l : List Char), '(' ∉ l → parenNegateAux f l = l := by
  intro f
  induction f with
  | zero => intro l _; rfl
  | succ f ih =>
    intro l h
    cases l with
    | nil => rfl
    | cons c rest =>
      have hc : ¬(c = '(') := fun hh => h (by simp [hh])
      simp only [parenNegateAux, hc, Bool.false_eq_true, if_false]
      rw [ih rest (fun hh => h (List.mem_cons_of_mem c hh))]

theorem parenNegate_id (l : List Char) (h : '(' ∉ l) : parenNegate l = l :=
  parenNegateAux_id l.length l h

theorem removeParensL_id : ∀ l : List Char, '(' ∉ l → removeParensL l = l := by
  intro l
  induction l with
  | nil => intro _; rfl
  | cons c rest ih =>
    intro h
    have hc : ¬(c = '(') := fun hh => h (by simp [hh])
    simp only [removeParensL, hc, Bool.false_eq_true, if_false]
    rw [ih (fun hh => h (List.mem_cons_of_mem c hh))]

theorem parseFloatL_nonneg (l : List Char) (h : '-' ∉ l) (v : ℚ)
    (hv : parseFloatL l = some v) : 0 ≤ v := by
  have hneg : ((l.dropWhile (·.isWhitespace)).head? = some '-') = False := by
    simp only [eq_iff_iff, iff_false]
    intro hh
    exact h ((List.dropWhile_sublist _).subset (List.mem_of_mem_head? hh))
  unfold parseFloatL parseFloatParts at hv
  simp only [hneg, decide_False, false_or] at hv
  split_ifs at hv <;>
    simp only [Option.map_none', Option.map_some', Option.some.injEq] at hv
  all_goals first
    | exact Option.noConfusion hv
    | (rw [← hv]
       unfold floatPartsVal
       simp only [Bool.false_eq_true, if_false, one_mul]
       positivity)

/-! ## Shape of the default-settings money string and its round trip -/

theorem formatNumberWith_no_strip (glob o : Settings) (x : ℚ) (h : o.stripZeros = false) :
    formatNumberWith glob o x = some ⟨formatNumberStr glob o x⟩ := by
  unfold formatNumberWith
  rw [h]
  simp

theorem formatMoneyWith_eval (glob o : Settings) (amount : ℚ) (formats : CurrencyFormat)
    (hf : checkCurrencyFormat o.format = some formats) :
    formatMoneyWith glob o amount = (formatNumberWith glob o |amount|).map
      (fun fv => moneySubst (if 0 < amount then formats.pos
        else if amount < 0 then formats.neg else formats.zero) o.symbol fv) := by
  unfold formatMoneyWith
  rw [hf]
  rfl

theorem checkCurrencyFormat_default :
    checkCurrencyFormat "%s%v" = some ⟨"%s%v", "%s-%v", "%s%v"⟩ := by decide

theorem moneySubst_dollar_pos (fv : String) : moneySubst "%s%v" "$" fv = ⟨'$' :: fv.data⟩ := by
  unfold moneySubst
  rw [show replaceFirstL "%s%v".data "%s".data "$".data = ['$'] ++ '%' :: 'v' :: [] from rfl]
  rw [replaceFirstL_pair '%' 'v' (by decide) fv.data ['$'] [] (by decide)]
  simp

theorem moneySubst_dollar_neg (fv : String) :
    moneySubst "%s-%v" "$" fv = ⟨'$' :: '-' :: fv.data⟩ := by
  unfold moneySubst
  rw [show replaceFirstL "%s-%v".data "%s".data "$".data = ['$', '-'] ++ '%' :: 'v' :: [] from rfl]
  rw [replaceFirstL_pair '%' 'v' (by decide) fv.data ['$', '-'] [] (by decide)]
  simp

theorem unformat_money_shape (neg : Bool) (a b : ℕ) (hb : (natDigits b).length ≤ 2) :
    unformatCore ⟨(if neg then ['$', '-'] else ['$']) ++
      (groupDigits [','] (natDigits a) ++ '.' :: padZeros 2 (natDigits b))⟩ "." 0 =
    (if neg then -1 else 1) * ((a : ℚ) + (b : ℚ) / 10 ^ 2) := by
  have hDdig := natDigits_all_digits a
  have hFdig := padZeros_all_digits 2 b
  have hF2 : (padZeros 2 (natDigits b)).length = 2 := padZeros_length 2 _ hb
  have hnp : '(' ∉ (if neg then ['-'] else []) ++
      (natDigits a ++ '.' :: padZeros 2 (natDigits b)) := by
    intro hmem
    rcases List.mem_append.mp hmem with hm | hm
    · cases neg
      · exact absurd hm (by decide)
      · exact absurd hm (by decide)
    · rcases List.mem_append.mp hm with hm2 | hm2
      · exact not_mem_of_all_digits _ hDdig '(' (by decide) hm2
      · rcases List.mem_cons.mp hm2 with h3 | h3
        · exact absurd h3 (by decide)
        · exact not_mem_of_all_digits _ hFdig '(' (by decide) h3
  have hstep1 : ((if neg then ['$', '-'] else ['$']) ++
      (groupDigits [','] (natDigits a) ++ '.' :: padZeros 2 (natDigits b))).filter
        (keepChars ".") =
      (if neg then ['-'] else []) ++ (natDigits a ++ '.' :: padZeros 2 (natDigits b)) := by
    rw [List.filter_append, List.filter_append,
      filter_groupDigits _ _ _ (by decide) (fun c hc => keepChars_digit _ c (hDdig c hc)),
      List.filter_cons]
    rw [if_pos (by decide : keepChars "." '.' = true)]
    rw [filter_all_digits _ _ hFdig (fun c h => keepChars_digit _ c h)]
    congr 1
    cases neg <;> decide
  have hclean : cleanedValueString ⟨(if neg then ['$', '-'] else ['$']) ++
      (groupDigits [','] (natDigits a) ++ '.' :: padZeros 2 (natDigits b))⟩ "." =
      (if neg then ['-'] else []) ++ (natDigits a ++ '.' :: padZeros 2 (natDigits b)) := by
    unfold cleanedValueString
    rw [show ((⟨(if neg then ['$', '-'] else ['$']) ++
      (groupDigits [','] (natDigits a) ++ '.' :: padZeros 2 (natDigits b))⟩ : String)).data =
      (if neg then ['$', '-'] else ['$']) ++
      (groupDigits [','] (natDigits a) ++ '.' :: padZeros 2 (natDigits b)) from rfl]
    rw [hstep1]
    rw [show (".".data : List Char) = ['.'] from rfl]
    rw [replaceFirstL_self]
    rw [parenNegate_id _ hnp, removeParensL_id _ hnp]
  have hcnt0 : (natDigits a ++ '.' :: padZeros 2 (natDigits b)).count '-' = 0 := by
    apply List.count_eq_zero.mpr
    intro hmem
    rcases List.mem_append.mp hmem with hm | hm
    · exact not_mem_of_all_digits _ hDdig '-' (by decide) hm
    · rcases List.mem_cons.mp hm with h3 | h3
      · exact absurd h3 (by decide)
      · exact not_mem_of_all_digits _ hFdig '-' (by decide) h3
  have hcount : ((if neg then ['-'] else []) ++
      (natDigits a ++ '.' :: padZeros 2 (natDigits b))).count '-' =
      if neg then 1 else 0 := by
    rw [List.count_append, hcnt0]
    cases neg <;> simp
  have hstrip : ((if neg then ['-'] else []) ++
      (natDigits a ++ '.' :: padZeros 2 (natDigits b))).filter (fun c => c ≠ '-') =
      natDigits a ++ '.' :: padZeros 2 (natDigits b) := by
    rw [List.filter_append]
    have h2 : (natDigits a ++ '.' :: padZeros 2 (natDigits b)).filter (fun c => c ≠ '-') =
        natDigits a ++ '.' :: padZeros 2 (natDigits b) := by
      apply List.filter_eq_self.mpr
      intro c hc
      rcases List.mem_append.mp hc with hm | hm
      · simpa using digit_ne_of_ne c '-' (hDdig c hm) (by decide)
      · rcases List.mem_cons.mp hm with h3 | h3
        · subst h3; decide
        · simpa using digit_ne_of_ne c '-' (hFdig c h3) (by decide)
    rw [h2]
    cases neg <;> simp
  have hpf : parseFloatParts (natDigits a ++ '.' :: padZeros 2 (natDigits b)) =
      some (false, a, b, 2) := by
    rw [parseFloatParts_digits_dot _ _ hDdig (natDigits_ne_nil a) hFdig]
    rw [parseNatL_natDigits, parseNatL_padZeros, parseNatL_natDigits, hF2]
  unfold unformatCore
  simp only [hclean, hcount, hstrip]
  unfold parseFloatL
  rw [hpf]
  simp only [Option.map_some', Option.getD_some]
  unfold floatPartsVal
  cases neg <;> simp

theorem formatMoney_settings_shape (x : ℚ) (m : ℕ)
    (h : jsRound ((|x| + eps) * 10 ^ 2) = (m : ℤ)) :
    formatMoneyWith settings settings x = some ⟨(if x < 0 then ['$', '-'] else ['$']) ++
      (groupDigits [','] (natDigits (m / 10 ^ 2)) ++
        '.' :: padZeros 2 (natDigits (m % 10 ^ 2)))⟩ := by
  have hstr : formatNumberStr settings settings |x| =
      groupDigits [','] (natDigits (m / 10 ^ 2)) ++ '.' :: padZeros 2 (natDigits (m % 10 ^ 2)) := by
    have h1 : selRound settings.round ((|(|x|)| + eps) * 10 ^ settings.precision) = (m : ℤ) := by
      rw [abs_abs]
      rw [show settings.round = 0 from rfl, selRound_zero]
      exact h
    have h2 : jsRound ((|(|x|)| + eps) * 10 ^ settings.precision) = (m : ℤ) := by
      rw [abs_abs]
      exact h
    rw [formatNumberStr_eval settings settings |x| m m h1 h2]
    rw [if_neg (not_lt.mpr (abs_nonneg x))]
    rw [if_pos (show 0 < settings.precision by decide)]
    simp [settings]
  have hnum : formatNumberWith settings settings |x| =
      some ⟨formatNumberStr settings settings |x|⟩ :=
    formatNumberWith_no_strip settings settings |x| rfl
  rw [formatMoneyWith_eval settings settings x _ checkCurrencyFormat_default]
  rw [hnum, Option.map_some']
  rcases lt_trichotomy x 0 with hx | hx | hx
  · rw [if_neg (by linarith), if_pos hx]
    rw [show (⟨"%s%v", "%s-%v", "%s%v"⟩ : CurrencyFormat).neg = "%s-%v" from rfl]
    rw [show settings.symbol = "$" from rfl, moneySubst_dollar_neg]
    rw [if_pos hx]
    simp [hstr]
  · rw [if_neg (by rw [hx]; exact lt_irrefl 0), if_neg (by rw [hx]; exact lt_irrefl 0)]
    rw [show (⟨"%s%v", "%s-%v", "%s%v"⟩ : CurrencyFormat).zero = "%s%v" from rfl]
    rw [show settings.symbol = "$" from rfl, moneySubst_dollar_pos]
    rw [if_neg (by rw [hx]; exact lt_irrefl 0)]
    simp [hstr]
  · rw [if_pos hx]
    rw [show (⟨"%s%v", "%s-%v", "%s%v"⟩ : CurrencyFormat).pos = "%s%v" from rfl]
    rw [show settings.symbol = "$" from rfl, moneySubst_dollar_pos]
    rw [if_neg (by linarith)]
    simp [hstr]


/-! ## Concrete rounding evaluation helpers -/

theorem jsRound_eq_of (q : ℚ) (n : ℤ) (h1 : (n : ℚ) ≤ q + 1 / 2) (h2 : q + 1 / 2 < n + 1) :
    jsRound q = n := by
  unfold jsRound
  rw [Int.floor_eq_iff]
  exact ⟨h1, h2⟩

theorem ceil_eq_of (q : ℚ) (n : ℤ) (h1 : (n : ℚ) - 1 < q) (h2 : q ≤ (n : ℚ)) : ⌈q⌉ = n := by
  rw [Int.ceil_eq_iff]
  exact ⟨h1, h2⟩

/-! ## Parsing rendered strings, general sign -/

theorem parseFloatParts_digits (D : List Char) (hD : ∀ c ∈ D, c.isDigit = true)
    (hne : D ≠ []) : parseFloatParts D = some (false, parseNatL D, 0, 0) := by
  obtain ⟨d, D', rfl⟩ := List.exists_cons_of_ne_nil hne
  have hd : d.isDigit = true := hD d (by simp)
  have hdw : d.isWhitespace = false := digit_not_whitespace d hd
  unfold parseFloatParts
  have hdrop : (d :: D').dropWhile (·.isWhitespace) = d :: D' := by
    rw [List.dropWhile_cons, hdw]
    simp
  have hdm : d ≠ '-' := digit_ne_of_ne d '-' hd (by decide)
  have hdp : d ≠ '+' := digit_ne_of_ne d '+' hd (by decide)
  have hl2 : (if some d = some '-' ∨ some d = some '+' then (d :: D').tail
      else d :: D') = d :: D' := if_neg (by simp [hdm, hdp])
  have hds : (d :: D').takeWhile (·.isDigit) = d :: D' := takeWhile_all _ _ hD
  simp only [hdrop, List.head?_cons, hl2, hds]
  rw [List.drop_length]
  rw [if_neg (by simp)]
  rw [if_neg (by simp)]
  simp [hdm]

theorem parseFloatParts_minus_digits_dot (D F : List Char)
    (hD : ∀ c ∈ D, c.isDigit = true) (hne : D ≠ []) (hF : ∀ c ∈ F, c.isDigit = true) :
    parseFloatParts ('-' :: (D ++ '.' :: F)) =
      some (true, parseNatL D, parseNatL F, F.length) := by
  unfold parseFloatParts
  have hdrop : ('-' :: (D ++ '.' :: F)).dropWhile (·.isWhitespace) = '-' :: (D ++ '.' :: F) := by
    rw [List.dropWhile_cons, show ('-').isWhitespace = false from by decide]
    simp
  simp only [hdrop, List.head?_cons]
  rw [if_pos (Or.inl trivial)]
  rw [List.tail_cons]
  rw [takeWhile_append_stop _ _ _ _ hD (by decide)]
  rw [List.drop_left]
  simp only [List.head?_cons, List.tail_cons]
  rw [if_pos trivial]
  rw [takeWhile_all _ F hF]
  rw [if_neg (by simp [List.length_eq_zero, hne])]
  simp

theorem parseFloatParts_minus_digits (D : List Char)
    (hD : ∀ c ∈ D, c.isDigit = true) (hne : D ≠ []) :
    parseFloatParts ('-' :: D) = some (true, parseNatL D, 0, 0) := by
  unfold parseFloatParts
  have hdrop : ('-' :: D).dropWhile (·.isWhitespace) = '-' :: D := by
    rw [List.dropWhile_cons, show ('-').isWhitespace = false from by decide]
    simp
  simp only [hdrop, List.head?_cons]
  rw [if_pos (Or.inl trivial)]
  rw [List.tail_cons]
  rw [takeWhile_all _ _ hD]
  rw [List.drop_length]
  rw [if_neg (by simp)]
  rw [if_neg (by simp [List.length_eq_zero, hne])]
  simp

theorem natCast_div_add_mod_div (m p : ℕ) :
    ((m / 10 ^ p : ℕ) : ℚ) + ((m % 10 ^ p : ℕ) : ℚ) / 10 ^ p = (m : ℚ) / 10 ^ p := by
  have hdm : m / 10 ^ p * 10 ^ p + m % 10 ^ p = m := by
    rw [Nat.mul_comm]
    exact Nat.div_add_mod m (10 ^ p)
  field_simp
  exact_mod_cast hdm

theorem natAbs_cast_of_neg (n : ℤ) (hn : n < 0) : ((n.natAbs : ℚ)) = -(n : ℚ) := by
  rw [Int.cast_natAbs, abs_of_neg hn]
  push_cast
  ring

theorem natAbs_cast_of_nonneg (n : ℤ) (hn : 0 ≤ n) : ((n.natAbs : ℚ)) = (n : ℚ) := by
  rw [Int.cast_natAbs, abs_of_nonneg hn]

theorem floatPartsVal_true (a b k : ℕ) :
    floatPartsVal (true, a, b, k) = -((a : ℚ) + (b : ℚ) / 10 ^ k) := by
  simp [floatPartsVal]

theorem floatPartsVal_false (a b k : ℕ) :
    floatPartsVal (false, a, b, k) = (a : ℚ) + (b : ℚ) / 10 ^ k := by
  simp [floatPartsVal]

theorem parseFloatL_render (n : ℤ) (p : ℕ) :
    parseFloatL (renderFixedInt n p).data = some ((n : ℚ) / 10 ^ p) := by
  have hDdig := natDigits_all_digits (n.natAbs / 10 ^ p)
  have hDne := natDigits_ne_nil (n.natAbs / 10 ^ p)
  have hFdig := padZeros_all_digits p (n.natAbs % 10 ^ p)
  have hval := natCast_div_add_mod_div n.natAbs p
  rw [renderFixedInt_data]
  unfold parseFloatL
  by_cases hn : n < 0
  · have habs : ((n.natAbs : ℚ)) = -(n : ℚ) := natAbs_cast_of_neg n hn
    rw [if_pos hn]
    by_cases hp : 0 < p
    · rw [if_pos hp]
      rw [show ['-'] ++ natDigits (n.natAbs / 10 ^ p) ++
          ('.' :: padZeros p (natDigits (n.natAbs % 10 ^ p))) =
          '-' :: (natDigits (n.natAbs / 10 ^ p) ++
            '.' :: padZeros p (natDigits (n.natAbs % 10 ^ p))) from by simp]
      rw [parseFloatParts_minus_digits_dot _ _ hDdig hDne hFdig]
      rw [parseNatL_natDigits, parseNatL_padZeros, parseNatL_natDigits,
        padZeros_length _ _ (natDigits_length_le _ p hp (Nat.mod_lt _ (by positivity)))]
      rw [Option.map_some', floatPartsVal_true]
      congr 1
      rw [hval, habs]
      ring
    · have hp0 : p = 0 := by omega
      subst hp0
      rw [if_neg (by omega)]
      rw [show ['-'] ++ natDigits (n.natAbs / 10 ^ 0) ++ [] =
        '-' :: natDigits (n.natAbs / 10 ^ 0) from by simp]
      rw [parseFloatParts_minus_digits _ hDdig hDne]
      rw [parseNatL_natDigits]
      rw [Option.map_some', floatPartsVal_true]
      congr 1
      simp only [pow_zero, Nat.div_one, Nat.cast_zero, zero_div, add_zero, div_one]
      rw [habs]
      ring
  · have habs : ((n.natAbs : ℚ)) = (n : ℚ) := natAbs_cast_of_nonneg n (by omega)
    rw [if_neg hn]
    by_cases hp : 0 < p
    · rw [if_pos hp]
      rw [List.nil_append]
      rw [parseFloatParts_digits_dot _ _ hDdig hDne hFdig]
      rw [parseNatL_natDigits, parseNatL_padZeros, parseNatL_natDigits,
        padZeros_length _ _ (natDigits_length_le _ p hp (Nat.mod_lt _ (by positivity)))]
      rw [Option.map_some', floatPartsVal_false]
      congr 1
      rw [hval, habs]
    · have hp0 : p = 0 := by omega
      subst hp0
      rw [if_neg (by omega)]
      rw [List.nil_append, List.append_nil]
      rw [parseFloatParts_digits _ hDdig hDne]
      rw [parseNatL_natDigits]
      rw [Option.map_some', floatPartsVal_false]
      congr 1
      simp only [pow_zero, Nat.div_one, Nat.cast_zero, zero_div, add_zero, div_one]
      rw [habs]

theorem jsSplit_render_any (n : ℤ) (p : ℕ) (hp : 0 < p) :
    jsSplitL (renderFixedInt n p).data ['.'] =
      [(if n < 0 then ['-'] else []) ++ natDigits (n.natAbs / 10 ^ p),
        padZeros p (natDigits (n.natAbs % 10 ^ p))] := by
  rw [renderFixedInt_data, if_pos hp]
  refine jsSplitL_dot _ _ ?_
    (not_mem_of_all_digits _ (padZeros_all_digits p _) '.' (by decide))
  intro hmem
  rcases List.mem_append.mp hmem with hm | hm
  · by_cases hn : n < 0
    · rw [if_pos hn] at hm
      exact absurd hm (by decide)
    · rw [if_neg hn] at hm
      exact absurd hm (by decide)
  · exact not_mem_of_all_digits _ (natDigits_all_digits _) '.' (by decide) hm

/-! ## Claim theorems -/

/-- Evaluation helper: `unformatCore` on a concrete string, given the
computed cleaned string, its minus-stripped form, and the parse result. -/
theorem unformatCore_concrete (s : String) (cl stripped : List Char)
    (t : Bool × ℕ × ℕ × ℕ) (hcl : cleanedValueString s "." = cl)
    (hstr : cl.filter (fun c => c ≠ '-') = stripped)
    (hpf : parseFloatParts stripped = some t) :
    unformatCore s "." 0 = floatPartsVal t * (if cl.count '-' % 2 = 1 then -1 else 1) := by
  unfold unformatCore
  simp only [hcl, hstr]
  unfold parseFloatL
  rw [hpf, Option.map_some', Option.map_some', Option.getD_some]

/-- C1 counterexample: the claim is false as stated.  `unformat "-(100)"` is
`100`, not `-100` (the bracket rewrite yields `--100`, two minus signs, an
even count — exactly what the odd/even rule and the source comment
`-(100) = 100` prescribe); and at `"-0"` the cleaned string has an odd minus
count while the result `-0 = 0` is not negative, so the stated equivalence
also fails. -/
theorem unformat_negativity_counterexample :
    (unformat "-(100)" settings.decimal settings.fallback = 100 ∧ (100 : ℚ) ≠ -100) ∧
    ¬((unformat "-0" settings.decimal settings.fallback < 0) ↔
      ((cleanedValueString "-0" settings.decimal).count '-' % 2 = 1)) := by
  have e1 : unformat "-(100)" settings.decimal settings.fallback = 100 := by
    show unformatCore "-(100)" "." 0 = 100
    rw [unformatCore_concrete "-(100)" ['-', '-', '1', '0', '0'] ['1', '0', '0']
      (false, 100, 0, 0) (by decide) (by decide) (by decide)]
    rw [floatPartsVal_false, if_neg (by decide)]
    norm_num
  have e2 : unformat "-0" settings.decimal settings.fallback = 0 := by
    show unformatCore "-0" "." 0 = 0
    rw [unformatCore_concrete "-0" ['-', '0'] ['0'] (false, 0, 0, 0)
      (by decide) (by decide) (by decide)]
    rw [floatPartsVal_false, if_pos (by decide)]
    norm_num
  refine ⟨⟨e1, by norm_num⟩, ?_⟩
  intro hiff
  have := hiff.mpr (by decide)
  rw [e2] at this
  exact absurd this (lt_irrefl 0)

/-- C1 amended: after cleaning, the parsed magnitude is non-negative and the
result is negative exactly when the minus count of the cleaned string is odd
AND the minus-stripped remainder parses to a positive value (when the parse
fails the result is the fallback `0`, and a zero magnitude gives `-0 = 0`);
the examples evaluate to `unformat "(1.99)" = -1.99`,
`unformat "--100" = 100` and — the double-negation semantics the source
comments document — `unformat "-(100)" = 100`. -/
theorem unformat_negativity_amended :
    (∀ s : String, unformat s settings.decimal settings.fallback < 0 ↔
      ((cleanedValueString s settings.decimal).count '-' % 2 = 1 ∧
        0 < (parseFloatL ((cleanedValueString s settings.decimal).filter
          (fun c => c ≠ '-'))).getD 0)) ∧
    unformat "(1.99)" settings.decimal settings.fallback = -(199 / 100) ∧
    unformat "--100" settings.decimal settings.fallback = 100 ∧
    unformat "-(100)" settings.decimal settings.fallback = 100 := by
  refine ⟨?_, ?_, ?_, ?_⟩
  · intro s
    rw [show settings.decimal = "." from rfl, show settings.fallback = (0 : ℚ) from rfl]
    show unformatCore s "." 0 < 0 ↔ _
    unfold unformatCore
    cases hpf : parseFloatL ((cleanedValueString s ".").filter (fun c => c ≠ '-')) with
    | none =>
      simp only [hpf, Option.map_none', Option.getD_none]
      constructor
      · intro h
        exact absurd h (lt_irrefl 0)
      · intro ⟨_, h⟩
        exact absurd h (lt_irrefl 0)
    | some v =>
      have hvpos : 0 ≤ v := parseFloatL_nonneg _
        (fun hmem => by have := List.of_mem_filter hmem; simp at this) v hpf
      simp only [hpf, Option.map_some', Option.getD_some]
      by_cases hneg : (cleanedValueString s ".").count '-' % 2 = 1
      · rw [if_pos hneg]
        constructor
        · intro h
          exact ⟨hneg, by linarith⟩
        · intro ⟨_, h⟩
          linarith
      · rw [if_neg hneg]
        constructor
        · intro h
          linarith
        · intro ⟨h, _⟩
          exact absurd h hneg
  · show unformatCore "(1.99)" "." 0 = _
    rw [unformatCore_concrete "(1.99)" ['-', '1', '.', '9', '9'] ['1', '.', '9', '9']
      (false, 1, 99, 2) (by decide) (by decide) (by decide)]
    rw [floatPartsVal_false, if_pos (by decide)]
    norm_num
  · show unformatCore "--100" "." 0 = _
    rw [unformatCore_concrete "--100" ['-', '-', '1', '0', '0'] ['1', '0', '0']
      (false, 100, 0, 0) (by decide) (by decide) (by decide)]
    rw [floatPartsVal_false, if_neg (by decide)]
    norm_num
  · show unformatCore "-(100)" "." 0 = _
    rw [unformatCore_concrete "-(100)" ['-', '-', '1', '0', '0'] ['1', '0', '0']
      (false, 100, 0, 0) (by decide) (by decide) (by decide)]
    rw [floatPartsVal_false, if_neg (by decide)]
    norm_num

/-- C6 counterexample: for the template `"--%v"` the source removes only the
first minus sign, producing the negative template `"--%v"`, while the spec's
wording (every literal minus removed, then a minus before `%v` —
`specNegTemplate`) gives `"-%v"`. -/
theorem checkCurrencyFormat_all_minus_counterexample :
    (checkCurrencyFormat "--%v").map CurrencyFormat.neg = some "--%v" ∧
    specNegTemplate "--%v" = "-%v" ∧ ("--%v" : String) ≠ ("-%v" : String) := by decide

/-- C6 amended: for a string template containing `%v`, `pos` and `zero` are
the template itself, and the negative template is the template with its
FIRST literal minus sign (if any) removed and a minus inserted immediately
before the FIRST `%v` of the result. -/
theorem checkCurrencyFormat_amended :
    (∀ (f : String) (t : CurrencyFormat), checkCurrencyFormat f = some t →
      t.pos = f ∧ t.zero = f) ∧
    (∀ (a b c d : List Char), '-' ∉ a → hasPair '%' 'v' c = false →
      containsL (a ++ '-' :: b) "%v".data = true → a ++ b = c ++ '%' :: 'v' :: d →
      (checkCurrencyFormat ⟨a ++ '-' :: b⟩).map CurrencyFormat.neg =
        some ⟨c ++ '-' :: '%' :: 'v' :: d⟩) ∧
    (∀ (c d : List Char), hasPair '%' 'v' c = false → '-' ∉ c ++ '%' :: 'v' :: d →
      (checkCurrencyFormat ⟨c ++ '%' :: 'v' :: d⟩).map CurrencyFormat.neg =
        some ⟨c ++ '-' :: '%' :: 'v' :: d⟩) := by
  refine ⟨?_, ?_, ?_⟩
  · intro f t h
    unfold checkCurrencyFormat at h
    split_ifs at h with hc
    simp only [Option.some.injEq] at h
    subst h
    exact ⟨rfl, rfl⟩
  · intro a b c d ha hc hcont heq
    unfold checkCurrencyFormat
    rw [if_pos (by exact hcont)]
    rw [Option.map_some']
    congr 1
    show (⟨replaceFirstL (replaceFirstL (a ++ '-' :: b) "-".data []) "%v".data
      "-%v".data⟩ : String) = _
    congr 1
    rw [show ("-".data : List Char) = ['-'] from rfl,
      show ("%v".data : List Char) = ['%', 'v'] from rfl,
      show ("-%v".data : List Char) = ['-', '%', 'v'] from rfl]
    have h1 : replaceFirstL (a ++ '-' :: b) ['-'] [] = a ++ b := by
      have := replaceFirstL_single '-' [] a b ha
      simpa using this
    rw [h1, heq]
    have := replaceFirstL_pair '%' 'v' (by decide) ['-', '%', 'v'] c d hc
    simpa using this
  · intro c d hc hnm
    unfold checkCurrencyFormat
    rw [if_pos (by
      show containsL (c ++ '%' :: 'v' :: d) "%v".data = true
      rw [show ("%v".data : List Char) = ['%', 'v'] from rfl]
      have hca := containsL_append_pat c ['%', 'v'] d
      rw [List.append_assoc] at hca
      exact hca)]
    rw [Option.map_some']
    congr 1
    show (⟨replaceFirstL (replaceFirstL (c ++ '%' :: 'v' :: d) "-".data []) "%v".data
      "-%v".data⟩ : String) = _
    congr 1
    rw [show ("-".data : List Char) = ['-'] from rfl,
      show ("%v".data : List Char) = ['%', 'v'] from rfl,
      show ("-%v".data : List Char) = ['-', '%', 'v'] from rfl]
    rw [replaceFirstL_single_of_not_mem '-' [] _ hnm]
    have := replaceFirstL_pair '%' 'v' (by decide) ['-', '%', 'v'] c d hc
    simpa using this

/-- C6 witness: the amended first-minus rule applied to the template
`"%s -%v"`, whose derived negative template is `"%s -%v"` itself. -/
theorem checkCurrencyFormat_amended_witness :
    (checkCurrencyFormat "%s -%v").map CurrencyFormat.neg = some "%s -%v" := by
  have h := checkCurrencyFormat_amended.2.1 "%s ".data "%v".data "%s ".data []
    (by decide) (by decide) (by decide) (by decide)
  exact (by decide : (checkCurrencyFormat "%s -%v").map CurrencyFormat.neg =
    (checkCurrencyFormat ⟨"%s ".data ++ '-' :: "%v".data⟩).map CurrencyFormat.neg).trans
    (h.trans (by decide))

/-- C2: the claim that every public operation returns without error for every
options record is contradicted by the code: with `stripZeros = true` and
`precision = 0` the formatted string contains no decimal separator, so
`stripInsignificantZeros` reads `parts[1]` (`undefined`) and the `.replace`
call throws a `TypeError` — modelled by the call returning `none`. -/
theorem formatNumber_stripZeros_zero_precision_throws :
    formatNumber 5 { stripZeros := some true, precision := some 0 } = none := by
  have h1 : jsRound ((|(5 : ℚ)| + eps) * 10 ^ (0 : ℕ)) = ((5 : ℕ) : ℤ) :=
    jsRound_eq_of _ _
      (by unfold eps; rw [abs_of_nonneg (by norm_num : (0 : ℚ) ≤ 5)]; norm_num)
      (by unfold eps; rw [abs_of_nonneg (by norm_num : (0 : ℚ) ≤ 5)]; norm_num)
  show formatNumberWith settings
    (mergedOpts settings { stripZeros := some true, precision := some 0 }) 5 = none
  set o := mergedOpts settings { stripZeros := some true, precision := some 0 } with ho
  have hm : selRound o.round ((|(5 : ℚ)| + eps) * 10 ^ o.precision) = ((5 : ℕ) : ℤ) := by
    rw [show o.round = 0 from rfl, selRound_zero, show o.precision = 0 from rfl]
    exact h1
  have hm' : jsRound ((|(5 : ℚ)| + eps) * 10 ^ o.precision) = ((5 : ℕ) : ℤ) := by
    rw [show o.precision = 0 from rfl]
    exact h1
  have hstr : formatNumberStr settings o 5 = ['5'] := by
    rw [formatNumberStr_eval settings o 5 5 5 hm hm']
    rw [if_neg (by norm_num : ¬(5 : ℚ) < 0)]
    decide
  unfold formatNumberWith
  rw [if_pos (show o.stripZeros = true from rfl)]
  rw [hstr]
  decide

/-- C4: `toFixed` scales by `10^precision`, adds the `1e-11` epsilon, applies
the rounding primitive selected by the direction flag (ceiling if positive,
floor if negative, nearest otherwise), scales back down (the rendered string
parses back to exactly `n / 10^precision`), and renders with exactly
`precision` digits after the decimal point; in particular
`toFixed 0.615 2 = "0.62"`.  (That the uncorrected binary-float computation
would give `"0.61"` is a fact about IEEE doubles, outside this exact-rational
model.) -/
theorem toFixed_decimal_safe_rounding :
    (∀ (v : ℚ) (p : ℕ) (r : ℤ),
      toFixed v (p : ℚ) r = renderFixedInt (if 0 < r then ⌈(v + eps) * 10 ^ p⌉
        else if r < 0 then ⌊(v + eps) * 10 ^ p⌋ else jsRound ((v + eps) * 10 ^ p)) p)
    ∧ (∀ (v : ℚ) (p : ℕ) (r : ℤ),
        parseFloatL (toFixed v (p : ℚ) r).data =
          some (((selRound r ((v + eps) * 10 ^ p) : ℤ) : ℚ) / 10 ^ p))
    ∧ (∀ (v : ℚ) (p : ℕ) (r : ℤ), 0 < p → ∃ ip fp : List Char,
        jsSplitL (toFixed v (p : ℚ) r).data ['.'] = [ip, fp] ∧ fp.length = p)
    ∧ toFixed (615 / 1000) 2 0 = "0.62" := by
  refine ⟨?_, ?_, ?_, ?_⟩
  · intro v p r
    unfold toFixed
    rw [toFixedG_natPrec]
    rfl
  · intro v p r
    unfold toFixed
    rw [toFixedG_natPrec]
    exact parseFloatL_render _ p
  · intro v p r hp
    unfold toFixed
    rw [toFixedG_natPrec]
    exact ⟨_, _, jsSplit_render_any _ p hp,
      padZeros_length _ _ (natDigits_length_le _ p hp (Nat.mod_lt _ (by positivity)))⟩
  · have h62 : jsRound ((615 / 1000 + eps) * 10 ^ (2 : ℕ)) = ((62 : ℕ) : ℤ) :=
      jsRound_eq_of _ _ (by unfold eps; norm_num) (by unfold eps; norm_num)
    show toFixedG settings (615 / 1000) 2 0 = "0.62"
    rw [show (2 : ℚ) = ((2 : ℕ) : ℚ) from by norm_num]
    rw [toFixedG_natPrec, selRound_zero, h62]
    decide

/-- C4 witness: the exactly-`precision`-digits part applied at
`toFixed 0.615 2 0`. -/
theorem toFixed_decimal_safe_rounding_witness :
    (0 < 2) ∧ (∃ ip fp : List Char,
      jsSplitL (toFixed (615 / 1000) ((2 : ℕ) : ℚ) 0).data ['.'] = [ip, fp] ∧
        fp.length = 2) :=
  ⟨by decide, toFixed_decimal_safe_rounding.2.2.1 (615 / 1000) 2 0 (by decide)⟩

/-- C9: no formatting or parsing call mutates the process-wide default
configuration: in the state-passing rendering of the library (the global
`settings` object threaded through every public operation), each call leaves
the settings record it read exactly as it was — every `objectAssign` in the
source writes into a fresh object literal. -/
theorem settings_never_mutated :
    ∀ (st : Settings) (value : String) (dec : Option String) (fb : Option ℚ)
      (v pr : ℚ) (rd : ℤ) (x amt : ℚ) (o1 o2 o3 : PartialSettings)
      (list : List (ℚ ⊕ String)),
      (unformatS value dec fb st).2 = st ∧
      (toFixedS v pr rd st).2 = st ∧
      (formatNumberS x o1 st).2 = st ∧
      (formatMoneyS amt o2 st).2 = st ∧
      (formatColumnS list o3 st).2 = st :=
  fun _ _ _ _ _ _ _ _ _ _ _ _ _ => ⟨rfl, rfl, rfl, rfl, rfl⟩

/-- C3 counterexample: the decimal portion does NOT come from the same
rounding as the integer portion.  At `x = 1.004` with rounding direction `1`
(ceiling) and precision `2`, the configured-direction rounding is
`toFixed 1.004 2 1 = "1.01"`, whose fractional part is `"01"`, yet
`formatNumber` emits `"1.00"`: the appended digits come from a second
`toFixed` call with the rounding argument omitted (nearest). -/
theorem formatNumber_round_direction_counterexample :
    formatNumber (251 / 250) { round := some 1 } = some "1.00" ∧
    toFixed (251 / 250) 2 1 = "1.01" ∧ ("1.00" : String) ≠ "1.01" := by
  have habs : |(251 / 250 : ℚ)| = 251 / 250 := abs_of_nonneg (by norm_num)
  refine ⟨?_, ?_, by decide⟩
  · show formatNumberWith settings (mergedOpts settings { round := some 1 }) (251 / 250) =
      some "1.00"
    set o := mergedOpts settings { round := some 1 } with ho
    have hm : selRound o.round ((|(251 / 250 : ℚ)| + eps) * 10 ^ o.precision) =
        ((101 : ℕ) : ℤ) := by
      rw [show o.round = 1 from rfl, show o.precision = 2 from rfl]
      unfold selRound
      rw [if_pos (by norm_num : (0 : ℤ) < 1)]
      exact ceil_eq_of _ _ (by unfold eps; rw [habs]; norm_num)
        (by unfold eps; rw [habs]; norm_num)
    have hm' : jsRound ((|(251 / 250 : ℚ)| + eps) * 10 ^ o.precision) = ((100 : ℕ) : ℤ) := by
      rw [show o.precision = 2 from rfl]
      exact jsRound_eq_of _ _ (by unfold eps; rw [habs]; norm_num)
        (by unfold eps; rw [habs]; norm_num)
    rw [formatNumberWith_no_strip settings o _ rfl]
    rw [formatNumberStr_eval settings o _ 101 100 hm hm']
    rw [if_neg (by norm_num : ¬(251 / 250 : ℚ) < 0)]
    decide
  · show toFixedG settings (251 / 250) 2 1 = "1.01"
    rw [show (2 : ℚ) = ((2 : ℕ) : ℚ) from by norm_num]
    rw [toFixedG_natPrec]
    rw [show selRound 1 ((251 / 250 + eps) * 10 ^ (2 : ℕ)) = ((101 : ℕ) : ℤ) from by
      unfold selRound
      rw [if_pos (by norm_num : (0 : ℤ) < 1)]
      exact ceil_eq_of _ _ (by unfold eps; norm_num) (by unfold eps; norm_num)]
    decide

/-- C3 amended: the integer portion comes from `toFixed` at the configured
rounding direction, the fractional digits from a second `toFixed` call with
the direction omitted (nearest rounding); when the configured direction is
`0`, both portions derive from one consistent rounding `m` of `|x|`, as this
theorem exhibits. -/
theorem formatNumber_consistent_when_round_zero :
    ∀ (o : Settings) (x : ℚ) (m : ℕ), o.round = 0 → o.stripZeros = false →
      jsRound ((|x| + eps) * 10 ^ o.precision) = (m : ℤ) →
      formatNumberWith settings o x = some ⟨(if x < 0 then ['-'] else []) ++
        (groupDigits o.thousand.data (natDigits (m / 10 ^ o.precision)) ++
          (if 0 < o.precision then
            o.decimal.data ++ padZeros o.precision (natDigits (m % 10 ^ o.precision))
          else []))⟩ := by
  intro o x m hr hs hm
  rw [formatNumberWith_no_strip settings o x hs]
  rw [formatNumberStr_eval settings o x m m (by rw [hr, selRound_zero]; exact hm) hm]

/-- C3 witness: the amended consistency at the default settings and
`x = 9876543.21`. -/
theorem formatNumber_consistent_when_round_zero_witness :
    settings.round = 0 ∧ settings.stripZeros = false ∧
    formatNumberWith settings settings (987654321 / 100) = some "9,876,543.21" := by
  have habs : |(987654321 / 100 : ℚ)| = 987654321 / 100 := abs_of_nonneg (by norm_num)
  have hm : jsRound ((|(987654321 / 100 : ℚ)| + eps) * 10 ^ settings.precision) =
      ((987654321 : ℕ) : ℤ) := by
    rw [show settings.precision = 2 from rfl]
    exact jsRound_eq_of _ _ (by unfold eps; rw [habs]; norm_num)
      (by unfold eps; rw [habs]; norm_num)
  refine ⟨rfl, rfl, ?_⟩
  rw [formatNumber_consistent_when_round_zero settings (987654321 / 100) 987654321
    rfl rfl hm]
  rw [if_neg (by norm_num : ¬(987654321 / 100 : ℚ) < 0)]
  decide

/-- C10: for every negative `x` whose magnitude rounds to zero at the
effective precision and rounding direction, `formatNumber` still emits the
minus prefix (the sign is computed from `x < 0` before the magnitude is
rounded), producing a signed-zero string `-0...`; and `formatMoney` always
selects the negative template for negative amounts, never the zero
template. -/
theorem formatNumber_signed_zero :
    ∀ (o : Settings) (x : ℚ), x < 0 → o.stripZeros = false →
      selRound o.round ((|x| + eps) * 10 ^ o.precision) = ((0 : ℕ) : ℤ) →
      (∃ rest : List Char, formatNumberWith settings o x = some ⟨'-' :: '0' :: rest⟩) ∧
      formatMoneyWith settings o x = (checkCurrencyFormat o.format).bind
        (fun formats => (formatNumberWith settings o |x|).map
          (fun fv => moneySubst formats.neg o.symbol fv)) := by
  intro o x hx hs hsel
  constructor
  · have heps : (0 : ℚ) < eps := by unfold eps; norm_num
    have h0 : 0 ≤ (|x| + eps) * 10 ^ o.precision := by
      apply mul_nonneg
      · have := abs_nonneg x
        linarith
      · positivity
    have hmz' : 0 ≤ jsRound ((|x| + eps) * 10 ^ o.precision) := jsRound_nonneg _ h0
    refine ⟨(if 0 < o.precision then o.decimal.data ++ padZeros o.precision
      (natDigits ((jsRound ((|x| + eps) * 10 ^ o.precision)).toNat % 10 ^ o.precision))
      else []), ?_⟩
    rw [formatNumberWith_no_strip settings o x hs]
    rw [formatNumberStr_eval settings o x 0
      ((jsRound ((|x| + eps) * 10 ^ o.precision)).toNat) hsel
      (Int.toNat_of_nonneg hmz').symm]
    rw [if_pos hx]
    rw [Nat.zero_div]
    rw [show natDigits 0 = ['0'] from rfl]
    rfl
  · unfold formatMoneyWith
    cases hcf : checkCurrencyFormat o.format with
    | none => rfl
    | some formats =>
      simp only [Option.bind_eq_bind, Option.some_bind]
      rw [if_neg (by linarith : ¬(0 : ℚ) < x), if_pos hx]

/-- C10 witness: at `x = -0.004` with the default settings, the magnitude
rounds to zero at precision 2 and the formatted number still carries the
minus prefix. -/
theorem formatNumber_signed_zero_witness :
    ((-1 / 250 : ℚ) < 0) ∧
    (∃ rest : List Char, formatNumberWith settings settings (-1 / 250) =
      some ⟨'-' :: '0' :: rest⟩) := by
  have hx : (-1 / 250 : ℚ) < 0 := by norm_num
  have habs : |(-1 / 250 : ℚ)| = 1 / 250 := by
    rw [abs_of_neg hx]
    norm_num
  have hsel : selRound settings.round ((|(-1 / 250 : ℚ)| + eps) * 10 ^ settings.precision) =
      ((0 : ℕ) : ℤ) := by
    rw [show settings.round = 0 from rfl, selRound_zero, show settings.precision = 2 from rfl]
    exact jsRound_eq_of _ _ (by unfold eps; rw [habs]; norm_num)
      (by unfold eps; rw [habs]; norm_num)
  exact ⟨hx, (formatNumber_signed_zero settings (-1 / 250) hx rfl hsel).1⟩

theorem colMaxLength_foldl_init_le (l : List String) :
    ∀ init : ℕ, init ≤ l.foldl (fun m s => max m s.length) init := by
  induction l with
  | nil => intro init; exact le_refl init
  | cons a tl ih =>
    intro init
    simp only [List.foldl_cons]
    exact le_trans (le_max_left init a.length) (ih (max init a.length))

theorem mem_le_colMaxLength_aux (l : List String) :
    ∀ (init : ℕ) (s : String), s ∈ l →
      s.length ≤ l.foldl (fun m s => max m s.length) init := by
  induction l with
  | nil => intro init s h; exact absurd h (List.not_mem_nil s)
  | cons a tl ih =>
    intro init s h
    simp only [List.foldl_cons]
    rcases List.mem_cons.1 h with rfl | h'
    · exact le_trans (le_max_right init s.length) (colMaxLength_foldl_init_le tl _)
    · exact ih _ s h'

theorem mem_le_colMaxLength (l : List String) (s : String) (h : s ∈ l) :
    s.length ≤ colMaxLength l :=
  mem_le_colMaxLength_aux l 0 s h

theorem padColumnItem_length (o : Settings) (pas : Bool) (M : ℕ) (val : String)
    (hle : val.length ≤ M)
    (hc : pas = true → containsL val.data o.symbol.data = true) :
    (padColumnItem o pas M val).length = M := by
  unfold padColumnItem
  by_cases h : val.length < M
  · rw [if_pos h]
    cases pas with
    | false =>
      rw [if_neg (by simp)]
      show (List.replicate (M - val.length) ' ' ++ val.data).length = M
      rw [List.length_append, List.length_replicate]
      have hdl : val.data.length = val.length := rfl
      omega
    | true =>
      rw [if_pos rfl]
      have hcon := hc rfl
      have hlen := replaceFirstL_length o.symbol.data
        (o.symbol.data ++ List.replicate (M - val.length) ' ') val.data hcon
      show (replaceFirstL val.data o.symbol.data
        (o.symbol.data ++ List.replicate (M - val.length) ' ')).length = M
      rw [List.length_append, List.length_replicate] at hlen
      have hdl : val.data.length = val.length := rfl
      omega
  · rw [if_neg h]
    omega

/-- C7 counterexample: the claim is false as stated.  With the template
`%v` (no symbol placeholder), the padding pass computes
`padAfterSymbol = true` (because `indexOf` returns `-1 < 0`) and pads by
replacing the first occurrence of the symbol — which is absent from the
rendered strings — so shorter strings are returned unpadded:
`formatColumn([1, 1000], \x7bformat: "%v"\x7d)` yields `"1.00"` and
`"1,000.00"`, of unequal lengths 4 and 8. -/
theorem formatColumn_unequal_lengths_counterexample :
    formatColumn [Sum.inl 1, Sum.inl 1000] { format := some "%v" } =
      some ["1.00", "1,000.00"] ∧
    ("1.00" : String).length ≠ ("1,000.00" : String).length := by
  refine ⟨?_, by decide⟩
  show formatColumnWith settings (mergedOpts settings { format := some "%v" })
    [Sum.inl 1, Sum.inl 1000] = some ["1.00", "1,000.00"]
  have habs1 : |(1 : ℚ)| = 1 := abs_of_nonneg (by norm_num)
  have habs2 : |(1000 : ℚ)| = 1000 := abs_of_nonneg (by norm_num)
  have hnum1 : formatNumberWith settings (mergedOpts settings { format := some "%v" })
      |(1 : ℚ)| = some "1.00" := by
    rw [habs1, formatNumberWith_no_strip _ _ _ rfl]
    rw [formatNumberStr_eval _ _ _ 100 100
      (by rw [show (mergedOpts settings { format := some "%v" }).round = 0 from rfl,
            selRound_zero,
            show (mergedOpts settings { format := some "%v" }).precision = 2 from rfl]
          exact jsRound_eq_of _ _ (by unfold eps; rw [habs1]; norm_num)
            (by unfold eps; rw [habs1]; norm_num))
      (by rw [show (mergedOpts settings { format := some "%v" }).precision = 2 from rfl]
          exact jsRound_eq_of _ _ (by unfold eps; rw [habs1]; norm_num)
            (by unfold eps; rw [habs1]; norm_num))]
    rw [if_neg (by norm_num : ¬(1 : ℚ) < 0)]
    decide
  have hnum2 : formatNumberWith settings (mergedOpts settings { format := some "%v" })
      |(1000 : ℚ)| = some "1,000.00" := by
    rw [habs2, formatNumberWith_no_strip _ _ _ rfl]
    rw [formatNumberStr_eval _ _ _ 100000 100000
      (by rw [show (mergedOpts settings { format := some "%v" }).round = 0 from rfl,
            selRound_zero,
            show (mergedOpts settings { format := some "%v" }).precision = 2 from rfl]
          exact jsRound_eq_of _ _ (by unfold eps; rw [habs2]; norm_num)
            (by unfold eps; rw [habs2]; norm_num))
      (by rw [show (mergedOpts settings { format := some "%v" }).precision = 2 from rfl]
          exact jsRound_eq_of _ _ (by unfold eps; rw [habs2]; norm_num)
            (by unfold eps; rw [habs2]; norm_num))]
    rw [if_neg (by norm_num : ¬(1000 : ℚ) < 0)]
    decide
  have hc1 : columnItem settings (mergedOpts settings { format := some "%v" })
      ⟨"%v", "-%v", "%v"⟩ (Sum.inl 1) = some "1.00" := by
    simp only [columnItem]
    rw [if_pos (by norm_num : (0 : ℚ) < 1)]
    rw [hnum1]
    decide
  have hc2 : columnItem settings (mergedOpts settings { format := some "%v" })
      ⟨"%v", "-%v", "%v"⟩ (Sum.inl 1000) = some "1,000.00" := by
    simp only [columnItem]
    rw [if_pos (by norm_num : (0 : ℚ) < 1000)]
    rw [hnum2]
    decide
  unfold formatColumnWith
  rw [show checkCurrencyFormat (mergedOpts settings { format := some "%v" }).format =
    some ⟨"%v", "-%v", "%v"⟩ from by decide]
  simp only [Option.bind_eq_bind, Option.some_bind]
  rw [show (([Sum.inl 1, Sum.inl 1000] : List (ℚ ⊕ String)).mapM
      (columnItem settings (mergedOpts settings { format := some "%v" })
        ⟨"%v", "-%v", "%v"⟩)) = some ["1.00", "1,000.00"] from by
    simp only [List.mapM_cons, List.mapM_nil, hc1, hc2, Option.bind_eq_bind,
      Option.some_bind, Option.map_some', pure]]
  simp only [Option.map_some']
  decide

/-- C7 amended: the returned strings all have the length of the longest
first-pass rendering provided the padding pass actually lands: either the
positive template does not place `%s` before `%v` (so padding is inserted
at index 0), or the symbol occurs in every rendered string (so the
replace-first-symbol padding succeeds).  Without that proviso the
symbol-replacement padding can no-op and lengths may differ. -/
theorem formatColumn_equal_lengths (glob o : Settings) (list : List (ℚ ⊕ String))
    (formats : CurrencyFormat) (formatted : List String)
    (hcf : checkCurrencyFormat o.format = some formats)
    (hfmt : list.mapM (columnItem glob o formats) = some formatted)
    (hpad : (¬jsIndexOf formats.pos "%s" < jsIndexOf formats.pos "%v") ∨
      ∀ s ∈ formatted, containsL s.data o.symbol.data = true) :
    ∃ out : List String, formatColumnWith glob o list = some out ∧
      ∀ s ∈ out, s.length = colMaxLength formatted := by
  have key : formatColumnWith glob o list = some (formatted.map
      (padColumnItem o (decide (jsIndexOf formats.pos "%s" < jsIndexOf formats.pos "%v"))
        (colMaxLength formatted))) := by
    unfold formatColumnWith
    rw [hcf]
    simp only [Option.bind_eq_bind, Option.some_bind]
    rw [hfmt]
    simp only [Option.map_some']
  refine ⟨_, key, ?_⟩
  intro s hs
  obtain ⟨t, ht, rfl⟩ := List.mem_map.1 hs
  refine padColumnItem_length o _ _ t (mem_le_colMaxLength formatted t ht) ?_
  intro hb
  rcases hpad with h | h
  · exact absurd (of_decide_eq_true hb) h
  · exact h t ht

/-- C7 witness: the amended equal-length property at the documentation
example `formatColumn([123.5, 3456.49, 777888.99, 12345678, -5432],
\x7bsymbol: "$ "\x7d)`: every returned string has length 15. -/
theorem formatColumn_equal_lengths_witness :
    ∃ out : List String,
      formatColumn [Sum.inl (247 / 2), Sum.inl (345649 / 100), Sum.inl (77788899 / 100),
        Sum.inl 12345678, Sum.inl (-5432)] { symbol := some "$ " } = some out ∧
      ∀ s ∈ out, s.length = 15 := by
  have habs1 : |(247 / 2 : ℚ)| = 247 / 2 := abs_of_nonneg (by norm_num)
  have habs2 : |(345649 / 100 : ℚ)| = 345649 / 100 := abs_of_nonneg (by norm_num)
  have habs3 : |(77788899 / 100 : ℚ)| = 77788899 / 100 := abs_of_nonneg (by norm_num)
  have habs4 : |(12345678 : ℚ)| = 12345678 := abs_of_nonneg (by norm_num)
  have habs5 : |(-5432 : ℚ)| = 5432 := by rw [abs_of_neg (by norm_num : (-5432 : ℚ) < 0)]; norm_num
  have habs5' : |(5432 : ℚ)| = 5432 := abs_of_nonneg (by norm_num)
  have hnum1 : formatNumberWith settings (mergedOpts settings { symbol := some "$ " })
      |(247 / 2 : ℚ)| = some "123.50" := by
    rw [habs1, formatNumberWith_no_strip _ _ _ rfl]
    rw [formatNumberStr_eval _ _ _ 12350 12350
      (by rw [show (mergedOpts settings { symbol := some "$ " }).round = 0 from rfl,
            selRound_zero,
            show (mergedOpts settings { symbol := some "$ " }).precision = 2 from rfl]
          exact jsRound_eq_of _ _ (by unfold eps; rw [habs1]; norm_num)
            (by unfold eps; rw [habs1]; norm_num))
      (by rw [show (mergedOpts settings { symbol := some "$ " }).precision = 2 from rfl]
          exact jsRound_eq_of _ _ (by unfold eps; rw [habs1]; norm_num)
            (by unfold eps; rw [habs1]; norm_num))]
    rw [if_neg (by norm_num : ¬(247 / 2 : ℚ) < 0)]
    decide
  have hnum2 : formatNumberWith settings (mergedOpts settings { symbol := some "$ " })
      |(345649 / 100 : ℚ)| = some "3,456.49" := by
    rw [habs2, formatNumberWith_no_strip _ _ _ rfl]
    rw [formatNumberStr_eval _ _ _ 345649 345649
      (by rw [show (mergedOpts settings { symbol := some "$ " }).round = 0 from rfl,
            selRound_zero,
            show (mergedOpts settings { symbol := some "$ " }).precision = 2 from rfl]
          exact jsRound_eq_of _ _ (by unfold eps; rw [habs2]; norm_num)
            (by unfold eps; rw [habs2]; norm_num))
      (by rw [show (mergedOpts settings { symbol := some "$ " }).precision = 2 from rfl]
          exact jsRound_eq_of _ _ (by unfold eps; rw [habs2]; norm_num)
            (by unfold eps; rw [habs2]; norm_num))]
    rw [if_neg (by norm_num : ¬(345649 / 100 : ℚ) < 0)]
    decide
  have hnum3 : formatNumberWith settings (mergedOpts settings { symbol := some "$ " })
      |(77788899 / 100 : ℚ)| = some "777,888.99" := by
    rw [habs3, formatNumberWith_no_strip _ _ _ rfl]
    rw [formatNumberStr_eval _ _ _ 77788899 77788899
      (by rw [show (mergedOpts settings { symbol := some "$ " }).round = 0 from rfl,
            selRound_zero,
            show (mergedOpts settings { symbol := some "$ " }).precision = 2 from rfl]
          exact jsRound_eq_of _ _ (by unfold eps; rw [habs3]; norm_num)
            (by unfold eps; rw [habs3]; norm_num))
      (by rw [show (mergedOpts settings { symbol := some "$ " }).precision = 2 from rfl]
          exact jsRound_eq_of _ _ (by unfold eps; rw [habs3]; norm_num)
            (by unfold eps; rw [habs3]; norm_num))]
    rw [if_neg (by norm_num : ¬(77788899 / 100 : ℚ) < 0)]
    decide
  have hnum4 : formatNumberWith settings (mergedOpts settings { symbol := some "$ " })
      |(12345678 : ℚ)| = some "12,345,678.00" := by
    rw [habs4, formatNumberWith_no_strip _ _ _ rfl]
    rw [formatNumberStr_eval _ _ _ 1234567800 1234567800
      (by rw [show (mergedOpts settings { symbol := some "$ " }).round = 0 from rfl,
            selRound_zero,
            show (mergedOpts settings { symbol := some "$ " }).precision = 2 from rfl]
          exact jsRound_eq_of _ _ (by unfold eps; rw [habs4]; norm_num)
            (by unfold eps; rw [habs4]; norm_num))
      (by rw [show (mergedOpts settings { symbol := some "$ " }).precision = 2 from rfl]
          exact jsRound_eq_of _ _ (by unfold eps; rw [habs4]; norm_num)
            (by unfold eps; rw [habs4]; norm_num))]
    rw [if_neg (by norm_num : ¬(12345678 : ℚ) < 0)]
    decide
  have hnum5 : formatNumberWith settings (mergedOpts settings { symbol := some "$ " })
      (5432 : ℚ) = some "5,432.00" := by
    rw [formatNumberWith_no_strip _ _ _ rfl]
    rw [formatNumberStr_eval _ _ _ 543200 543200
      (by rw [show (mergedOpts settings { symbol := some "$ " }).round = 0 from rfl,
            selRound_zero,
            show (mergedOpts settings { symbol := some "$ " }).precision = 2 from rfl]
          exact jsRound_eq_of _ _ (by unfold eps; rw [habs5']; norm_num)
            (by unfold eps; rw [habs5']; norm_num))
      (by rw [show (mergedOpts settings { symbol := some "$ " }).precision = 2 from rfl]
          exact jsRound_eq_of _ _ (by unfold eps; rw [habs5']; norm_num)
            (by unfold eps; rw [habs5']; norm_num))]
    rw [if_neg (by norm_num : ¬(5432 : ℚ) < 0)]
    decide
  have hc1 : columnItem settings (mergedOpts settings { symbol := some "$ " })
      ⟨"%s%v", "%s-%v", "%s%v"⟩ (Sum.inl (247 / 2)) = some "$ 123.50" := by
    simp only [columnItem]
    rw [if_pos (by norm_num : (0 : ℚ) < 247 / 2)]
    rw [hnum1]
    decide
  have hc2 : columnItem settings (mergedOpts settings { symbol := some "$ " })
      ⟨"%s%v", "%s-%v", "%s%v"⟩ (Sum.inl (345649 / 100)) = some "$ 3,456.49" := by
    simp only [columnItem]
    rw [if_pos (by norm_num : (0 : ℚ) < 345649 / 100)]
    rw [hnum2]
    decide
  have hc3 : columnItem settings (mergedOpts settings { symbol := some "$ " })
      ⟨"%s%v", "%s-%v", "%s%v"⟩ (Sum.inl (77788899 / 100)) = some "$ 777,888.99" := by
    simp only [columnItem]
    rw [if_pos (by norm_num : (0 : ℚ) < 77788899 / 100)]
    rw [hnum3]
    decide
  have hc4 : columnItem settings (mergedOpts settings { symbol := some "$ " })
      ⟨"%s%v", "%s-%v", "%s%v"⟩ (Sum.inl 12345678) = some "$ 12,345,678.00" := by
    simp only [columnItem]
    rw [if_pos (by norm_num : (0 : ℚ) < 12345678)]
    rw [hnum4]
    decide
  have hc5 : columnItem settings (mergedOpts settings { symbol := some "$ " })
      ⟨"%s%v", "%s-%v", "%s%v"⟩ (Sum.inl (-5432)) = some "$ -5,432.00" := by
    simp only [columnItem]
    rw [if_neg (by norm_num : ¬(0 : ℚ) < -5432), if_pos (by norm_num : (-5432 : ℚ) < 0)]
    rw [habs5, hnum5]
    decide
  have hfmt : (([Sum.inl (247 / 2), Sum.inl (345649 / 100), Sum.inl (77788899 / 100),
      Sum.inl 12345678, Sum.inl (-5432)] : List (ℚ ⊕ String)).mapM
        (columnItem settings (mergedOpts settings { symbol := some "$ " })
          ⟨"%s%v", "%s-%v", "%s%v"⟩)) =
      some ["$ 123.50", "$ 3,456.49", "$ 777,888.99", "$ 12,345,678.00", "$ -5,432.00"] := by
    simp only [List.mapM_cons, List.mapM_nil, hc1, hc2, hc3, hc4, hc5,
      Option.bind_eq_bind, Option.some_bind, Option.map_some', pure]
  obtain ⟨out, h1, h2⟩ := formatColumn_equal_lengths settings
    (mergedOpts settings { symbol := some "$ " })
    [Sum.inl (247 / 2), Sum.inl (345649 / 100), Sum.inl (77788899 / 100),
      Sum.inl 12345678, Sum.inl (-5432)]
    ⟨"%s%v", "%s-%v", "%s%v"⟩
    ["$ 123.50", "$ 3,456.49", "$ 777,888.99", "$ 12,345,678.00", "$ -5,432.00"]
    (by decide) hfmt (Or.inr (by decide))
  refine ⟨out, h1, ?_⟩
  intro s hs
  rw [h2 s hs]
  decide

/-- C8: placeholder substitution in `formatMoney` is single-occurrence per
placeholder: for a positive amount and a template containing two `%s` and
two `%v` occurrences, only the first `%s` is replaced by the symbol and only
the first `%v` by the formatted value; the later instances remain literally
in the output. -/
theorem formatMoney_single_replacement (glob o : Settings) (amount : ℚ)
    (a b c d e : List Char)
    (hfmt : o.format = ⟨a ++ '%' :: 's' :: (b ++ '%' :: 's' ::
      (c ++ '%' :: 'v' :: (d ++ '%' :: 'v' :: e)))⟩)
    (hpos : 0 < amount)
    (h1 : hasPair '%' 's' a = false)
    (h2 : hasPair '%' 'v' (a ++ o.symbol.data ++ b ++ ['%', 's'] ++ c) = false) :
    formatMoneyWith glob o amount = (formatNumberWith glob o |amount|).map
      (fun fv => ⟨a ++ o.symbol.data ++ b ++ ['%', 's'] ++ c ++ fv.data ++ d ++
        ['%', 'v'] ++ e⟩) := by
  have hdata : o.format.data = a ++ '%' :: 's' :: (b ++ '%' :: 's' ::
      (c ++ '%' :: 'v' :: (d ++ '%' :: 'v' :: e))) := by rw [hfmt]
  have hcv : containsL o.format.data "%v".data = true := by
    rw [hdata, show ("%v".data : List Char) = ['%', 'v'] from rfl]
    rw [show a ++ '%' :: 's' :: (b ++ '%' :: 's' :: (c ++ '%' :: 'v' ::
        (d ++ '%' :: 'v' :: e))) =
      (a ++ '%' :: 's' :: (b ++ '%' :: 's' :: c)) ++ ['%', 'v'] ++
        (d ++ '%' :: 'v' :: e) from by simp]
    exact containsL_append_pat _ _ _
  have hcf : checkCurrencyFormat o.format = some
      ⟨o.format, ⟨replaceFirstL (replaceFirstL o.format.data "-".data [])
        "%v".data "-%v".data⟩, o.format⟩ := by
    unfold checkCurrencyFormat
    rw [hcv]
    simp
  rw [formatMoneyWith_eval glob o amount _ hcf]
  rw [if_pos hpos]
  show (formatNumberWith glob o |amount|).map
    (fun fv => moneySubst o.format o.symbol fv) = _
  have hsub : ∀ fv : String, moneySubst o.format o.symbol fv =
      (⟨a ++ o.symbol.data ++ b ++ ['%', 's'] ++ c ++ fv.data ++ d ++
        ['%', 'v'] ++ e⟩ : String) := by
    intro fv
    unfold moneySubst
    rw [hdata, show ("%s".data : List Char) = ['%', 's'] from rfl,
        show ("%v".data : List Char) = ['%', 'v'] from rfl]
    rw [replaceFirstL_pair '%' 's' (by decide) o.symbol.data a _ h1]
    rw [show a ++ o.symbol.data ++ (b ++ '%' :: 's' :: (c ++ '%' :: 'v' ::
        (d ++ '%' :: 'v' :: e))) =
      (a ++ o.symbol.data ++ b ++ ['%', 's'] ++ c) ++ '%' :: 'v' ::
        (d ++ '%' :: 'v' :: e) from by simp]
    rw [replaceFirstL_pair '%' 'v' (by decide) fv.data _ _ h2]
    simp
  simp only [hsub]

/-- C8 witness: at amount `1` with symbol `$` and the template
`x%sy%sz%vw%vu`, only the first `%s` and the first `%v` are substituted,
giving `x$y%sz1.00w%vu`. -/
theorem formatMoney_single_replacement_witness :
    formatMoney 1 { format := some "x%sy%sz%vw%vu" } = some "x$y%sz1.00w%vu" := by
  show formatMoneyWith settings
    (mergedOpts settings { format := some "x%sy%sz%vw%vu" }) 1 = _
  set o := mergedOpts settings { format := some "x%sy%sz%vw%vu" } with ho
  rw [formatMoney_single_replacement settings o 1
    "x".data "y".data "z".data "w".data "u".data (by decide) (by norm_num)
    (by decide) (by decide)]
  have habs : |(1 : ℚ)| = 1 := abs_of_nonneg (by norm_num)
  have hm : jsRound ((|(1 : ℚ)| + eps) * 10 ^ o.precision) = ((100 : ℕ) : ℤ) := by
    rw [show o.precision = 2 from rfl]
    exact jsRound_eq_of _ _ (by unfold eps; rw [habs]; norm_num)
      (by unfold eps; rw [habs]; norm_num)
  have hnum : formatNumberWith settings o |(1 : ℚ)| = some "1.00" := by
    rw [formatNumberWith_no_strip settings o _ rfl]
    rw [formatNumberStr_eval settings o _ 100 100
      (by rw [show o.round = 0 from rfl, selRound_zero]
          rw [show |(|(1 : ℚ)|)| = |(1 : ℚ)| from by rw [habs, habs]]
          exact hm)
      (by rw [show |(|(1 : ℚ)|)| = |(1 : ℚ)| from by rw [habs, habs]]
          exact hm)]
    rw [if_neg (by rw [habs]; norm_num : ¬|(1 : ℚ)| < 0)]
    decide
  rw [hnum]
  decide

/-- C5: for every non-array numeric input `x`, formatted and parsed with the
default configuration, `unformat (formatMoney x)` is within `10^-precision`
of `x`. -/
theorem unformat_formatMoney_roundTrip :
    ∀ x : ℚ, ∃ s : String, formatMoney x {} = some s ∧
      |unformat s settings.decimal settings.fallback - x| ≤ 1 / 10 ^ settings.precision := by
  intro x
  have heps : (0 : ℚ) < eps := by unfold eps; norm_num
  have hy0 : 0 ≤ (|x| + eps) * 10 ^ 2 := by positivity
  have hn : 0 ≤ jsRound ((|x| + eps) * 10 ^ 2) := jsRound_nonneg _ hy0
  set m := (jsRound ((|x| + eps) * 10 ^ 2)).toNat with hm
  have hmz : jsRound ((|x| + eps) * 10 ^ 2) = (m : ℤ) := (Int.toNat_of_nonneg hn).symm
  have hmoney := formatMoney_settings_shape x m hmz
  have hb : (natDigits (m % 10 ^ 2)).length ≤ 2 :=
    natDigits_length_le _ 2 (by norm_num) (Nat.mod_lt _ (by norm_num))
  have hdist : abs ((m : ℚ) / 10 ^ 2 - |x|) ≤ 1 / 200 + eps := by
    have h1 := jsRound_dist ((|x| + eps) * 10 ^ 2)
    rw [hmz] at h1
    push_cast at h1
    rw [abs_le] at h1 ⊢
    constructor <;> [linarith [h1.1]; linarith [h1.2]]
  have hval : ((m / 10 ^ 2 : ℕ) : ℚ) + ((m % 10 ^ 2 : ℕ) : ℚ) / 10 ^ 2 = (m : ℚ) / 10 ^ 2 := by
    have hdm : m / 10 ^ 2 * 10 ^ 2 + m % 10 ^ 2 = m := by omega
    field_simp
    exact_mod_cast hdm
  refine ⟨_, hmoney, ?_⟩
  show |unformatCore _ settings.decimal settings.fallback - x| ≤ 1 / 10 ^ settings.precision
  rw [show settings.decimal = "." from rfl, show settings.fallback = (0 : ℚ) from rfl,
    show (10 : ℚ) ^ settings.precision = 10 ^ 2 from rfl]
  have hepsv : eps = 1 / 10 ^ 11 := rfl
  by_cases hx : x < 0
  · rw [show (if x < 0 then ['$', '-'] else ['$']) = ['$', '-'] from if_pos hx]
    have hu2 : unformatCore ⟨['$', '-'] ++ (groupDigits [','] (natDigits (m / 10 ^ 2)) ++
        '.' :: padZeros 2 (natDigits (m % 10 ^ 2)))⟩ "." 0 =
        (-1 : ℚ) * (((m / 10 ^ 2 : ℕ) : ℚ) + ((m % 10 ^ 2 : ℕ) : ℚ) / 10 ^ 2) :=
      unformat_money_shape true (m / 10 ^ 2) (m % 10 ^ 2) hb
    rw [hu2]
    rw [abs_le] at hdist ⊢
    rw [abs_of_neg hx] at hdist
    constructor
    · linarith [hdist.1, hdist.2, hval, hepsv]
    · linarith [hdist.1, hdist.2, hval, hepsv]
  · rw [show (if x < 0 then ['$', '-'] else ['$']) = ['$'] from if_neg hx]
    have hu2 : unformatCore ⟨['$'] ++ (groupDigits [','] (natDigits (m / 10 ^ 2)) ++
        '.' :: padZeros 2 (natDigits (m % 10 ^ 2)))⟩ "." 0 =
        (1 : ℚ) * (((m / 10 ^ 2 : ℕ) : ℚ) + ((m % 10 ^ 2 : ℕ) : ℚ) / 10 ^ 2) :=
      unformat_money_shape false (m / 10 ^ 2) (m % 10 ^ 2) hb
    rw [hu2]
    rw [abs_le] at hdist ⊢
    rw [abs_of_nonneg (not_lt.mp hx)] at hdist
    constructor
    · linarith [hdist.1, hdist.2, hval, hepsv]
    · linarith [hdist.1, hdist.2, hval, hepsv]

end AccountingJS
